import Mathlib

/-!
# Kernel monitor (`kern/monitor.c`): parsing, permission codec, ranges, commands

A shallow embedding of the JOS kernel monitor:

* `str2num`  (lines 49-65)   : text to `int`, base 10 or 16;
* `num2binstr` (lines 67-73) : a number to its binary digits;
* `char2perm` / `str2perm` (lines 75-104) : permission letters to a flag mask;
* `validate_and_retrieve` (lines 106-119) with the macros `IS_HEX`, `HEX_VAL`,
  `DEC_VAL`, `START`, `N_PAGES` (lines 17-23);
* the page-table macros `PDE`, `PTE`, `P_PDE`, `P_PTE`, `PERM` (lines 25-31);
* the handlers `mon_help`, `mon_kerninfo`, `mon_showmappings`, `mon_setpermissions`,
  `mon_clearpermissions` and `change_permissions` (lines 121-256);
* `runcmd` and the loop of `monitor` (lines 262-316).

Conventions.

* A C string is the list of the characters stored before its terminating NUL.
  Reading `*str` past the last character yields NUL; a NUL stored inside the
  list ends the string there, exactly as it would in memory.
* A `char` is a Lean `Char`, compared through its code (`code`); the codes from
  128 up stand for the bytes that are negative as a signed `char`: like them they
  fail every range test below and match no `case` label.
* `int` is an `Int` kept in `[-2^31, 2^31)` by `wrapInt` (two's complement
  wrap-around); `uint32_t` / `uintptr_t` is a `Nat` below `2^32`.
* A function that may call `panic` returns an `Outcome`; output parameters
  (`*va_start`, `*n_pages`) become the returned value.
* The page tables are passed to the handlers and handed back by them; console
  output is the list of the `cprintf` calls made, each with its format and
  arguments.
-/

set_option linter.unusedVariables false

namespace Monitor

/-! ## Machine integers and C strings -/

/-- Value of a mathematical integer once stored in a C `int` (32 bits, wrapping). -/
def wrapInt (x : Int) : Int := (x + 2147483648) % 4294967296 - 2147483648

/-- The conversion `(uint32_t) x` of a C `int`. -/
def toU32 (x : Int) : Nat := (x % 4294967296).toNat

/-- Subtraction of two `uint32_t` values. -/
def sub32 (a b : Nat) : Nat := (a % 4294967296 + 4294967296 - b % 4294967296) % 4294967296

/-- Bitwise complement `~x` of a `uint32_t`. -/
def not32 (x : Nat) : Nat := 4294967295 - x % 4294967296

/-- The terminating byte of a C string. -/
def NUL : Char := Char.ofNat 0

/-- The byte `str[i]`, for `i` up to the position of the terminator. -/
def charAt (str : List Char) (i : Nat) : Char := str.getD i NUL

/-- A `char` promoted to `int`, as C does before comparing it or computing with it. -/
def code (c : Char) : Int := (c.toNat : Int)

/-- How a call ends: it returns a value, it calls `panic`, or it reads memory
that is not there (an `argv` slot that holds no string, a page table in a frame
the kernel cannot reach). -/
inductive Outcome (α : Type) where
  | ret (a : α)
  | panic (msg : String)
  | fault
  deriving DecidableEq, Repr

/-! ## Constants and macros of headers outside `kern/monitor.c` -/

/-- Modelled from the spec: `PGSIZE` of `inc/mmu.h`, the page size, 4096 bytes. -/
def PGSIZE : Nat := 4096

/-- Modelled from the spec: `PTE_P` of `inc/mmu.h`, the Present flag, bit 0. -/
def PTE_P : Nat := 0x001

/-- Modelled from the spec: `PTE_W` of `inc/mmu.h`, the Writable flag, bit 1. -/
def PTE_W : Nat := 0x002

/-- Modelled from the spec: `PTE_U` of `inc/mmu.h`, the User flag, bit 2. -/
def PTE_U : Nat := 0x004

/-- Modelled from the spec: `PTE_PWT` of `inc/mmu.h`, the Write-through flag, bit 3. -/
def PTE_PWT : Nat := 0x008

/-- Modelled from the spec: `PTE_PCD` of `inc/mmu.h`, the Cache-disable flag, bit 4. -/
def PTE_PCD : Nat := 0x010

/-- Modelled from the spec: `PTE_A` of `inc/mmu.h`, the Accessed flag, bit 5. -/
def PTE_A : Nat := 0x020

/-- Modelled from the spec: `PTE_D` of `inc/mmu.h`, the Dirty flag, bit 6. -/
def PTE_D : Nat := 0x040

/-- Modelled from the spec: `PTE_G` of `inc/mmu.h`, the Global flag, bit 8
(bit 7 is the page-table-attribute-index flag, which has no letter). -/
def PTE_G : Nat := 0x100

/-- Modelled from the spec: `ROUNDDOWN(a, n)` of `inc/types.h`, on the `uint32_t`
value of `a`: the nearest multiple of `n` not above `a`. -/
def ROUNDDOWN (a n : Nat) : Nat := a - a % n

/-- Modelled from the spec: `ROUNDUP(a, n)` of `inc/types.h`, on the `uint32_t`
value of `a`: `ROUNDDOWN(a + n - 1, n)`, the sum taken in 32 bits. -/
def ROUNDUP (a n : Nat) : Nat := ROUNDDOWN ((a + n - 1) % 4294967296) n

/-! ## `str2num` -/

/-- The `while` loop of `str2num` for base 10 (lines 53-56): consumes decimal
digits, returns the accumulated `ret` and the unread rest of the string. -/
def str2num_dec : List Char → Int → Int × List Char
  | [], ret => (ret, [])
  | c :: cs, ret =>
    if code c ≠ 0 ∧ code c ≥ code '0' ∧ code c ≤ code '9' then
      str2num_dec cs (wrapInt (10 * ret + (code c - code '0')))
    else (ret, c :: cs)

/-- The `while` loop of `str2num` for base 16 (lines 58-62): consumes decimal
digits and lowercase `a`-`f`. -/
def str2num_hex : List Char → Int → Int × List Char
  | [], ret => (ret, [])
  | c :: cs, ret =>
    if (code c ≠ 0 ∧ code c ≥ code '0' ∧ code c ≤ code '9') ∨
        (code c ≥ code 'a' ∧ code c ≤ code 'f') then
      str2num_hex cs (wrapInt (16 * ret +
        (code c - (if code c ≤ code '9' then code '0' else code 'a' - 10))))
    else (ret, c :: cs)

/-- `str2num(str, base)` (lines 49-65): `-1` when the loop stopped before the
terminator, the accumulated value otherwise. -/
def str2num (str : List Char) (base : Int) : Int :=
  let r : Int × List Char :=
    if base = 10 then str2num_dec str 0
    else if base = 16 then str2num_hex str 0
    else (0, str)
  if code (charAt r.2 0) ≠ 0 then -1 else r.1

/-! ## `char2perm`, `str2perm` -/

/-- `char2perm(c)` (lines 75-89); the `default` branch returns `(uint32_t) -1`. -/
def char2perm (c : Char) : Nat :=
  if c = 'G' then PTE_G
  else if c = 'D' then PTE_D
  else if c = 'A' then PTE_A
  else if c = 'C' then PTE_PCD
  else if c = 'T' then PTE_PWT
  else if c = 'U' then PTE_U
  else if c = 'W' then PTE_W
  else if c = 'P' then PTE_P
  else 4294967295

/-- The `while` loop of `str2perm` (lines 94-95): ORs the flag of every character. -/
def str2perm_loop : List Char → Nat → Nat
  | [], perm => perm
  | c :: cs, perm => if code c ≠ 0 then str2perm_loop cs (perm ||| char2perm c) else perm

/-- `str2perm(str)` (lines 91-104). `perm` is a `uint32_t`, so the test
`perm < 0` of line 97 compares a natural number with zero. -/
def str2perm (str : List Char) : Outcome Nat :=
  let perm : Nat := str2perm_loop str 0
  if perm < 0 then Outcome.panic "Wrong permission argument\n"
  else Outcome.ret (perm &&& not32 (char2perm 'P'))

/-! ## Range resolution -/

/-- `IS_HEX(str)` (line 17): the string begins with `0x`. -/
def IS_HEX (str : List Char) : Bool := charAt str 0 == '0' && charAt str 1 == 'x'

/-- `HEX_VAL(str)` (line 18): `str2num(str + 2, 16)`. -/
def HEX_VAL (str : List Char) : Int := str2num (str.drop 2) 16

/-- `DEC_VAL(str)` (line 19): `str2num(str, 10)`. -/
def DEC_VAL (str : List Char) : Int := str2num str 10

/-- `START(str)` (line 21): `ROUNDDOWN(HEX_VAL(argv[1]), PGSIZE)`, as the
`uintptr_t` it is stored into. The macro reads `argv[1]` whatever its
parameter; `arg1` is that string. -/
def START (arg1 : List Char) : Nat := ROUNDDOWN (toU32 (HEX_VAL arg1)) PGSIZE

/-- `N_PAGES(argc, va_start, argv)` (line 23), as the `uint32_t` it is stored
into; `none` when `argv[2]` is read and holds no string. The subtraction and
the division are unsigned because `va_start` is a `uintptr_t`. -/
def N_PAGES (argc : Int) (va_start : Nat) (argv : List (List Char)) : Option Nat :=
  if argc = 2 then some 1
  else
    match argv[2]? with
    | none => none
    | some arg2 =>
      if IS_HEX arg2 then
        some (sub32 (ROUNDUP (toU32 (HEX_VAL arg2)) PGSIZE) va_start / PGSIZE)
      else some (toU32 (DEC_VAL arg2))

/-- `validate_and_retrieve(argc, argv, &va_start, &n_pages, hint)` (lines
106-119); returns the pair `(va_start, n_pages)`. Both are unsigned, so the
tests of line 117 compare natural numbers with zero. -/
def validate_and_retrieve (argc : Int) (argv : List (List Char)) (hint : String) :
    Outcome (Nat × Nat) :=
  if argc ≤ 1 then Outcome.panic "hint\n"
  else
    match argv[1]? with
    | none => Outcome.fault
    | some arg1 =>
      if ¬ (IS_HEX arg1 = true) then Outcome.panic "hint\n"
      else
        let va_start : Nat := START arg1
        match N_PAGES argc va_start argv with
        | none => Outcome.fault
        | some n_pages =>
          if va_start < 0 ∨ n_pages < 0 then Outcome.panic "hint\n"
          else Outcome.ret (va_start, n_pages)

/-! ## Page tables -/

/-- Modelled from the spec: `PDX(va)` of `inc/mmu.h`, the page-directory index,
the high ten bits (31..22) of a virtual address. -/
def PDX (va : Nat) : Nat := (va / 4194304) % 1024

/-- Modelled from the spec: `PTX(va)` of `inc/mmu.h`, the page-table index, the
middle ten bits (21..12) of a virtual address. -/
def PTX (va : Nat) : Nat := (va / 4096) % 1024

/-- Modelled from the spec: `PTE_ADDR(pte)` of `inc/mmu.h`, the frame-address
field of an entry: the entry with its twelve low bits cleared. -/
def PTE_ADDR (pte : Nat) : Nat := pte - pte % 4096

/-- Modelled from the spec: `PTE_PAT`, the page-table-attribute-index flag, bit 7,
the one flag without a letter. -/
def PTE_PAT : Nat := 0x080

/-- The live two-level page table. `kern_pgdir i` is entry `i` of the page
directory. Modelled from the spec: `KADDR` of `kern/pmap.h` and the memory
behind it are the field `frame`: `frame pa` is the page table held in the
physical frame at address `pa`, as read through `KADDR(pa)`, and `none` when that
address is not one the kernel can reach. -/
structure PageTables where
  kern_pgdir : Nat → Nat
  frame : Nat → Option (Nat → Nat)

/-- Sequencing of two steps: the second runs on the value the first returns. -/
def Outcome.bind {α β : Type} (x : Outcome α) (f : α → Outcome β) : Outcome β :=
  match x with
  | Outcome.ret a => f a
  | Outcome.panic msg => Outcome.panic msg
  | Outcome.fault => Outcome.fault

/-- `PDE(pgdir, va)` (line 25). -/
def PDE (m : PageTables) (va : Nat) : Nat := m.kern_pgdir (PDX va)

/-- `PTE(pgdir, va)` (lines 26-27): the read of `*PTE_PTR(pgdir, va)`, entry
`PTX(va)` of the table at `KADDR(PTE_ADDR(PDE(pgdir, va)))`. -/
def PTE (m : PageTables) (va : Nat) : Outcome Nat :=
  match m.frame (PTE_ADDR (PDE m va)) with
  | some table => Outcome.ret (table (PTX va))
  | none => Outcome.fault

/-- `P_PDE(pgdir, va)` (line 29). -/
def P_PDE (m : PageTables) (va : Nat) : Nat := PDE m va &&& PTE_P

/-- `P_PTE(pgdir, va)` (line 30). -/
def P_PTE (m : PageTables) (va : Nat) : Outcome Nat :=
  (PTE m va).bind fun e => Outcome.ret (e &&& PTE_P)

/-- `PERM(pgdir, va)` (line 31): the entry minus its frame address. -/
def PERM (m : PageTables) (va : Nat) : Outcome Nat :=
  (PTE m va).bind fun e => Outcome.ret (e - PTE_ADDR e)

/-- The condition `P_PDE(kern_pgdir, va) && P_PTE(kern_pgdir, va)` of line 202
(and of line 135); `&&` evaluates its right operand only when the left one is
non-zero. -/
def mapped_test (m : PageTables) (va : Nat) : Outcome Bool :=
  if P_PDE m va ≠ 0 then (P_PTE m va).bind fun p => Outcome.ret (decide (p ≠ 0))
  else Outcome.ret false

/-! ## `num2binstr` -/

/-- `num2binstr(num, store, bit)` (lines 67-73) for `bit >= 0`; `store` is the
buffer, returned with the characters written into it. -/
def num2binstr : Nat → List Char → Nat → List Char
  | _, store, 0 => store
  | num, store, bit + 1 =>
    num2binstr (num / 2) (store.set bit (Char.ofNat (num % 2 + '0'.toNat))) bit

/-! ## Console output -/

/-- An argument of `cprintf`: a number or a string. -/
inductive Arg where
  | num (n : Nat)
  | str (s : List Char)
  deriving DecidableEq, Repr

/-- One call of `cprintf`: its format string and the values of its arguments. -/
structure Cprintf where
  fmt : String
  args : List Arg
  deriving DecidableEq, Repr

/-- The linker symbols and the constant `KERNBASE` that `mon_kerninfo` prints. -/
structure KernelSymbols where
  _start : Nat
  entry : Nat
  etext : Nat
  edata : Nat
  end_ : Nat
  KERNBASE : Nat

/-- What a command handler yields: its `int` result, the page tables it leaves
and the `cprintf` calls it made. The `Trapframe` argument, which no handler
uses, is left out. -/
abbrev CmdResult : Type := Outcome (Int × PageTables × List Cprintf)

/-! ## `mon_showmappings`, `change_permissions`, `mon_setpermissions`, `mon_clearpermissions` -/

/-- The array `hint` of `mon_showmappings` (lines 180-183). -/
def smps_hint : String :=
  "\nPlease pass arguments in correct formats, for example:\n" ++
  "  smps 0x3000 0x5000 ---show the mapping from va=0x3000 to va=0x5000\n" ++
  "  smps 0x3000 100 ---show the mapping of 100 virtual pages from va=0x3000\n" ++
  "  smps 0x3000 ---show the mapping of va=0x3000 only\n"

/-- The format of the header printed by `mon_showmappings` (lines 189-194). -/
def smps_header : String :=
  "G: global   I: page table attribute index D: dirty\n" ++
  "A: accessed C: cache disable              T: write through\n" ++
  "U: user     W: writeable                  P: present\n" ++
  "---------------------------------\n" ++
  "virtual_ad  physica_ad  GIDACTUWP\n"

/-- The `for` loop of `mon_showmappings` (lines 200-215): the first argument
counts the iterations left, `cnt` is the loop variable. For a mapped page the
permission string is computed and dropped (the `cprintf` of line 209 is inside a
comment); for any other page the marker line is printed. -/
def mon_showmappings_loop (m : PageTables) (va_start : Nat) : Nat → Nat → Outcome (List Cprintf)
  | 0, _ => Outcome.ret []
  | left + 1, cnt =>
    let va : Nat := (va_start + cnt * PGSIZE) % 4294967296
    (mapped_test m va).bind fun mapped =>
      if mapped then
        (PERM m va).bind fun perm =>
          let permission : List Char := num2binstr perm (List.replicate 10 NUL) 9
          mon_showmappings_loop m va_start left (cnt + 1)
      else
        (mon_showmappings_loop m va_start left (cnt + 1)).bind fun out =>
          Outcome.ret (Cprintf.mk "0x%08x -------- --------\n" [Arg.num va] :: out)

/-- `mon_showmappings(argc, argv, tf)` (lines 178-218): its result and output. -/
def mon_showmappings (argc : Int) (argv : List (List Char)) (m : PageTables) :
    Outcome (Int × List Cprintf) :=
  (validate_and_retrieve argc argv smps_hint).bind fun range =>
    (mon_showmappings_loop m range.1 range.2 0).bind fun out =>
      Outcome.ret (0, Cprintf.mk smps_header [] :: out)

/-- The call of line 124 in `change_permissions`: the range it resolves into its
locals `va_start` and `n_pages`. -/
def change_permissions_range (argc : Int) (argv : List (List Char)) (hint : String) :
    Outcome (Nat × Nat) :=
  validate_and_retrieve (argc - 1) argv hint

/-- `change_permissions(argc, argv, op, hint)` (lines 121-141). The range is
resolved; the block that would decode the letters and rewrite the entries
(lines 126-140) is inside a comment, so the page tables are handed back as they
came. -/
def change_permissions (argc : Int) (argv : List (List Char)) (op : Bool) (hint : String)
    (m : PageTables) : Outcome PageTables :=
  (change_permissions_range argc argv hint).bind fun range => Outcome.ret m

/-- The array `hint` of `mon_setpermissions` (lines 221-230). -/
def stp_hint : String :=
  "\nPlease pass arguments in correct formats, for example:\n" ++
  "  stp 0x3000 0x5000 AD ---set permission bit A and D from va=0x3000 to va=0x5000\n" ++
  "  stp 0x3000 100 AD---set permission bit A and D of 100 virtual pages from va=0x3000\n" ++
  "  stp 0x3000 AD---set permission bit A and D of va=0x3000 only\n" ++
  "\n" ++
  "G: global   I: page table attribute index D: dirty\n" ++
  "A: accessed C: cache disable T: write through\n" ++
  "U: user     W: writeable     P: present\n" ++
  "\n" ++
  "ps: P is forbbiden to set by hand\n"

/-- The array `hint` of `mon_clearpermissions` (lines 240-249). -/
def clp_hint : String :=
  "\nPlease pass arguments in correct formats, for example:\n" ++
  "  clr 0x3000 0x5000 AD ---clear permission bit A and D from va=0x3000 to va=0x5000\n" ++
  "  clr 0x3000 100 AD---clear permission bit A and D of 100 virtual pages from va=0x3000\n" ++
  "  clr 0x3000 AD---clear permission bit A and D of va=0x3000 only\n" ++
  "\n" ++
  "G: global   I: page table attribute index D: dirty\n" ++
  "A: accessed C: cache disable T: write through\n" ++
  "U: user     W: writeable     P: present\n" ++
  "\n" ++
  "ps: P is forbbiden to clear by hand\n"

/-- `mon_setpermissions(argc, argv, tf)` (lines 220-237). -/
def mon_setpermissions (argc : Int) (argv : List (List Char)) (m : PageTables) : CmdResult :=
  (change_permissions argc argv true stp_hint m).bind fun m1 =>
    (mon_showmappings (argc - 1) argv m1).bind fun shown =>
      Outcome.ret (0, m1, Cprintf.mk "Permission has been updated:\n" [] :: shown.2)

/-- `mon_clearpermissions(argc, argv, tf)` (lines 239-256). -/
def mon_clearpermissions (argc : Int) (argv : List (List Char)) (m : PageTables) : CmdResult :=
  (change_permissions argc argv false clp_hint m).bind fun m1 =>
    (mon_showmappings (argc - 1) argv m1).bind fun shown =>
      Outcome.ret (0, m1, Cprintf.mk "Permission has been cleared:\n" [] :: shown.2)

/-! ## Command table and interpreter -/

/-- The names and descriptions of the array `commands` (lines 40-46), in order. -/
def command_descs : List (List Char × String) :=
  [(['h', 'e', 'l', 'p'], "Display this list of commands"),
   (['k', 'e', 'r', 'n', 'i', 'n', 'f', 'o'], "Display information about the kernel"),
   (['s', 'm', 'p', 's'], "Display information about the mem mappings"),
   (['s', 't', 'p'], "Set page permissions"),
   (['c', 'l', 'p'], "Clear page permissions")]

/-- `mon_help(argc, argv, tf)` (lines 145-153). -/
def mon_help (argc : Int) (argv : List (List Char)) (m : PageTables) : CmdResult :=
  Outcome.ret (0, m,
    command_descs.map fun d => Cprintf.mk "%s - %s\n" [Arg.str d.1, Arg.str d.2.toList])

/-- `mon_kerninfo(argc, argv, tf)` (lines 155-169). -/
def mon_kerninfo (argc : Int) (argv : List (List Char)) (sym : KernelSymbols)
    (m : PageTables) : CmdResult :=
  Outcome.ret (0, m,
    [Cprintf.mk "Special kernel symbols:\n" [],
     Cprintf.mk "  _start                  %08x (phys)\n" [Arg.num sym._start],
     Cprintf.mk "  entry  %08x (virt)  %08x (phys)\n"
       [Arg.num sym.entry, Arg.num (sub32 sym.entry sym.KERNBASE)],
     Cprintf.mk "  etext  %08x (virt)  %08x (phys)\n"
       [Arg.num sym.etext, Arg.num (sub32 sym.etext sym.KERNBASE)],
     Cprintf.mk "  edata  %08x (virt)  %08x (phys)\n"
       [Arg.num sym.edata, Arg.num (sub32 sym.edata sym.KERNBASE)],
     Cprintf.mk "  end    %08x (virt)  %08x (phys)\n"
       [Arg.num sym.end_, Arg.num (sub32 sym.end_ sym.KERNBASE)],
     Cprintf.mk "Kernel executable memory footprint: %dKB\n"
       [Arg.num (ROUNDUP (sub32 sym.end_ sym.entry) 1024 / 1024)]])

/-- `struct Command` (lines 33-38). -/
structure Command where
  name : List Char
  desc : String
  func : Int → List (List Char) → KernelSymbols → PageTables → CmdResult

/-- The array `commands` (lines 40-46). -/
def commands : List Command :=
  [Command.mk ['h', 'e', 'l', 'p'] "Display this list of commands"
     (fun argc argv sym m => mon_help argc argv m),
   Command.mk ['k', 'e', 'r', 'n', 'i', 'n', 'f', 'o'] "Display information about the kernel"
     (fun argc argv sym m => mon_kerninfo argc argv sym m),
   Command.mk ['s', 'm', 'p', 's'] "Display information about the mem mappings"
     (fun argc argv sym m =>
       (mon_showmappings argc argv m).bind fun r => Outcome.ret (r.1, m, r.2)),
   Command.mk ['s', 't', 'p'] "Set page permissions"
     (fun argc argv sym m => mon_setpermissions argc argv m),
   Command.mk ['c', 'l', 'p'] "Clear page permissions"
     (fun argc argv sym m => mon_clearpermissions argc argv m)]

/-- `WHITESPACE` (line 259). -/
def WHITESPACE : List Char := ['\t', '\r', '\n', ' ']

/-- `MAXARGS` (line 260). -/
def MAXARGS : Nat := 16

/-- Modelled from the spec: `strcmp` of `lib/string.c`, by which command names
are matched exactly: it walks both strings while they agree and returns the
difference of the first two bytes that differ, zero when the strings are equal. -/
def strcmp : List Char → List Char → Int
  | [], [] => 0
  | [], d :: _ => 0 - code d
  | c :: _, [] => code c
  | c :: cs, d :: ds => if code c ≠ 0 ∧ c = d then strcmp cs ds else code c - code d

/-- The loop of lines 274-275: skips the whitespace at the head of the buffer. -/
def gobble : List Char → List Char
  | [] => []
  | c :: cs => if code c ≠ 0 ∧ c ∈ WHITESPACE then gobble cs else c :: cs

/-- The loop of lines 285-286: scans past the next argument; returns the
characters of that argument and the rest of the buffer. -/
def scan_arg : List Char → List Char × List Char
  | [] => ([], [])
  | c :: cs =>
    if code c ≠ 0 ∧ c ∉ WHITESPACE then ((c :: (scan_arg cs).1), (scan_arg cs).2)
    else ([], c :: cs)

/-- The `while (1)` loop of `runcmd` (lines 272-287), bounded by a number of
iterations that the buffer length never exceeds: `argv` holds the arguments
saved so far; `none` is the return after `Too many arguments`. -/
def runcmd_parse : Nat → List Char → List (List Char) → Option (List (List Char))
  | 0, _, argv => some argv
  | fuel + 1, buf, argv =>
    if code (charAt (gobble buf) 0) = 0 then some argv
    else if argv.length = MAXARGS - 1 then none
    else runcmd_parse fuel (scan_arg (gobble buf)).2 (argv ++ [(scan_arg (gobble buf)).1])

/-- `runcmd(buf, tf)` (lines 262-299). -/
def runcmd (buf : List Char) (sym : KernelSymbols) (m : PageTables) : CmdResult :=
  match runcmd_parse (buf.length + 1) buf [] with
  | none => Outcome.ret (0, m, [Cprintf.mk "Too many arguments (max %d)\n" [Arg.num MAXARGS]])
  | some [] => Outcome.ret (0, m, [])
  | some (arg0 :: args) =>
    match commands.find? (fun cmd => decide (strcmp arg0 cmd.name = 0)) with
    | some cmd => cmd.func ((arg0 :: args).length : Int) (arg0 :: args) sym m
    | none => Outcome.ret (0, m, [Cprintf.mk "Unknown command '%s'\n" [Arg.str arg0]])

/-- One pass through the body of the `while (1)` loop of `monitor` (lines
310-315): `line` is what `readline` returned (`none` for `NULL`); the Boolean
tells whether the pass ended in the `break`. -/
def monitor_step (line : Option (List Char)) (sym : KernelSymbols) (m : PageTables) :
    Outcome (Bool × PageTables × List Cprintf) :=
  match line with
  | none => Outcome.ret (false, m, [])
  | some buf =>
    (runcmd buf sym m).bind fun r =>
      if r.1 < 0 then Outcome.ret (true, r.2.1, r.2.2) else Outcome.ret (false, r.2.1, r.2.2)

/-- `monitor(tf)` (lines 301-316) run against the successive results of
`readline`, for as long as they are given: the Boolean tells whether the loop was
left through its `break`; `false` means that every given line was consumed and
the loop is about to call `readline` again. -/
def monitor_loop (sym : KernelSymbols) :
    List (Option (List Char)) → PageTables → List Cprintf →
      Outcome (Bool × PageTables × List Cprintf)
  | [], m, out => Outcome.ret (false, m, out)
  | line :: rest, m, out =>
    (monitor_step line sym m).bind fun r =>
      if r.1 then Outcome.ret (true, r.2.1, out ++ r.2.2)
      else monitor_loop sym rest r.2.1 (out ++ r.2.2)

/-- `monitor(tf)`: the two greeting lines, then the loop. -/
def monitor (sym : KernelSymbols) (lines : List (Option (List Char))) (m : PageTables) :
    Outcome (Bool × PageTables × List Cprintf) :=
  monitor_loop sym lines m
    [Cprintf.mk "Welcome to the JOS kernel monitor!\n" [],
     Cprintf.mk "Type 'help' for a list of commands.\n" []]

/-! ## The interpreter over any command table -/

/-- The decimal digits, in increasing order of value. -/
def decDigits : List Char := ['0', '1', '2', '3', '4', '5', '6', '7', '8', '9']

/-- The digits of a lowercase hexadecimal numeral, in increasing order of value. -/
def hexDigits : List Char := decDigits ++ ['a', 'b', 'c', 'd', 'e', 'f']

/-- The value of a digit: its position among `hexDigits`. -/
def digitVal (c : Char) : Nat := hexDigits.indexOf c

/-- The number a list of digits denotes in the given base, most significant
digit first. -/
def numeral (base : Nat) (t : List Char) : Nat :=
  t.foldl (fun acc c => base * acc + digitVal c) 0

/-- The text is a C string: none of its characters is the terminator. -/
def NulFree (t : List Char) : Prop := ∀ c ∈ t, c ≠ NUL

/-- The lowercase hexadecimal digits of `v` (no prefix, no leading zero). -/
def hexText (v : Nat) : List Char := Nat.toDigits 16 v

/-- The letters that name a permission flag. -/
def mnemonics : List Char := ['G', 'D', 'A', 'C', 'T', 'U', 'W', 'P']

/-- The address of the page `cnt` pages after `va_start`, as a 32-bit address. -/
def page_va (va_start cnt : Nat) : Nat := (va_start + cnt * 4096) % 4294967296

/-- The marker line of an unmapped page (the `cprintf` of line 214). -/
def unmapped_record (va : Nat) : Cprintf :=
  Cprintf.mk "0x%08x -------- --------\n" [Arg.num va]

/-- The line the header announces for a mapped page: virtual address, physical
frame address and the nine-character permission string (the format inside the
comment of line 209). -/
def mapped_record (va pa : Nat) (permission : List Char) : Cprintf :=
  Cprintf.mk "0x%08x\t0x%08x %s\n" [Arg.num va, Arg.num pa, Arg.str permission]

/-- A sample state: directory entry 0 is present and points at the frame
`0x1000`, whose table maps the page `0x3000` to the frame `0x5000` with the flags
User, Writable, Present; nothing else is mapped. -/
def sample_tables : PageTables where
  kern_pgdir := fun i => if i = 0 then 0x1007 else 0
  frame := fun pa => if pa = 0x1000 then some (fun j => if j = 3 then 0x5007 else 0) else none

/-- Sample linker symbols. -/
def sample_symbols : KernelSymbols :=
  KernelSymbols.mk 0x10000c 0xf010000c 0xf0101a75 0xf0112300 0xf0112960 0xf0000000

/-- The character `0` or `1` that shows a flag. -/
def bit_char (b : Bool) : Char := if b then '1' else '0'

/-- The whitespace-separated tokens of a line: the non-empty pieces between
whitespace characters. -/
def tokens (line : List Char) : List (List Char) :=
  (line.splitOnP fun c => decide (c ∈ WHITESPACE)).filter fun t => !t.isEmpty

/-- The registered command names. -/
def command_names : List (List Char) := commands.map Command.name

/-- A state in which nothing is mapped: no directory entry is present and no
frame holds a table. -/
def empty_tables : PageTables where
  kern_pgdir := fun _ => 0
  frame := fun _ => none

/-- What the loop of `mon_showmappings` is to print for the range
`(va_start, n_pages)`: going through the pages of the range in order, the marker
of each page that fails the mapped test; a page that passes it gets no line. -/
def range_report (m : PageTables) (va_start n_pages : Nat) : List Cprintf :=
  (List.range n_pages).filterMap fun i =>
    if mapped_test m (page_va va_start i) = Outcome.ret false then
      some (unmapped_record (page_va va_start i))
    else none

theorem toU32_wrapInt (x : Int) : toU32 (wrapInt x) = toU32 x := by
  unfold toU32 wrapInt
  omega

theorem wrapInt_range (x : Int) : -2147483648 ≤ wrapInt x ∧ wrapInt x < 2147483648 := by
  unfold wrapInt
  omega

theorem code_eq_zero_iff (c : Char) : code c = 0 ↔ c = NUL := by
  unfold code NUL
  constructor
  · intro h
    apply Char.ext
    apply UInt32.ext
    have : c.toNat = 0 := by exact_mod_cast h
    simpa [Char.toNat] using this
  · rintro rfl
    rfl

/-- Every hexadecimal digit passes the loop test of `str2num` for base 16 and
its offset is its value. -/
theorem hex_digit_step (c : Char) (h : c ∈ hexDigits) :
    ((code c ≠ 0 ∧ code c ≥ code '0' ∧ code c ≤ code '9') ∨
      (code c ≥ code 'a' ∧ code c ≤ code 'f')) ∧
    code c - (if code c ≤ code '9' then code '0' else code 'a' - 10) = (digitVal c : Int) ∧
    digitVal c < 16 := by
  simp only [hexDigits, decDigits, List.cons_append, List.nil_append, List.mem_cons,
    List.mem_singleton, List.not_mem_nil, or_false] at h
  rcases h with h | h | h | h | h | h | h | h | h | h | h | h | h | h | h | h <;> subst h <;> decide

theorem dec_digit_step (c : Char) (h : c ∈ decDigits) :
    (code c ≠ 0 ∧ code c ≥ code '0' ∧ code c ≤ code '9') ∧
    code c - code '0' = (digitVal c : Int) ∧ digitVal c < 10 := by
  simp only [decDigits, List.mem_cons, List.mem_singleton, List.not_mem_nil, or_false] at h
  rcases h with h | h | h | h | h | h | h | h | h | h <;> subst h <;> decide

theorem str2num_hex_digits (t : List Char) (ht : ∀ c ∈ t, c ∈ hexDigits) (ret : Int) (a : Nat)
    (ha : toU32 ret = a % 4294967296) :
    (str2num_hex t ret).2 = [] ∧
    toU32 (str2num_hex t ret).1 =
      t.foldl (fun acc c => 16 * acc + digitVal c) a % 4294967296 := by
  induction t generalizing ret a with
  | nil => simpa [str2num_hex] using ha
  | cons c cs ih =>
    obtain ⟨hc, hoff, hlt⟩ := hex_digit_step c (ht c (List.mem_cons_self _ _))
    rw [str2num_hex, if_pos hc, hoff, List.foldl_cons]
    apply ih (fun d hd => ht d (List.mem_cons_of_mem _ hd))
    rw [toU32_wrapInt]
    unfold toU32 at ha ⊢
    omega

theorem str2num_dec_digits (t : List Char) (ht : ∀ c ∈ t, c ∈ decDigits) (ret : Int) (a : Nat)
    (ha : toU32 ret = a % 4294967296) :
    (str2num_dec t ret).2 = [] ∧
    toU32 (str2num_dec t ret).1 =
      t.foldl (fun acc c => 10 * acc + digitVal c) a % 4294967296 := by
  induction t generalizing ret a with
  | nil => simpa [str2num_dec] using ha
  | cons c cs ih =>
    obtain ⟨hc, hoff, hlt⟩ := dec_digit_step c (ht c (List.mem_cons_self _ _))
    rw [str2num_dec, if_pos hc, hoff, List.foldl_cons]
    apply ih (fun d hd => ht d (List.mem_cons_of_mem _ hd))
    rw [toU32_wrapInt]
    unfold toU32 at ha ⊢
    omega

theorem charAt_nil : code (charAt [] 0) = 0 := by decide

/-- On a token of hexadecimal digits `str2num` returns the `int` whose 32-bit
pattern is the value of the numeral modulo `2^32`. -/
theorem toU32_str2num_hex (t : List Char) (ht : ∀ c ∈ t, c ∈ hexDigits) :
    toU32 (str2num t 16) = numeral 16 t % 4294967296 := by
  obtain ⟨h1, h2⟩ := str2num_hex_digits t ht 0 0 (by decide)
  simp only [str2num, show ¬ ((16 : Int) = 10) by decide, if_false, if_true, h1, charAt_nil,
    ne_eq, not_true_eq_false]
  exact h2

theorem toU32_str2num_dec (t : List Char) (ht : ∀ c ∈ t, c ∈ decDigits) :
    toU32 (str2num t 10) = numeral 10 t % 4294967296 := by
  obtain ⟨h1, h2⟩ := str2num_dec_digits t ht 0 0 (by decide)
  simp only [str2num, if_true, h1, charAt_nil, ne_eq, not_true_eq_false, if_false]
  exact h2

theorem str2num_hex_range (t : List Char) (ret : Int)
    (hr : -2147483648 ≤ ret ∧ ret < 2147483648) :
    -2147483648 ≤ (str2num_hex t ret).1 ∧ (str2num_hex t ret).1 < 2147483648 := by
  induction t generalizing ret with
  | nil => simpa [str2num_hex] using hr
  | cons c cs ih =>
    rw [str2num_hex]
    split
    · exact ih _ (wrapInt_range _)
    · exact hr

theorem str2num_dec_range (t : List Char) (ret : Int)
    (hr : -2147483648 ≤ ret ∧ ret < 2147483648) :
    -2147483648 ≤ (str2num_dec t ret).1 ∧ (str2num_dec t ret).1 < 2147483648 := by
  induction t generalizing ret with
  | nil => simpa [str2num_dec] using hr
  | cons c cs ih =>
    rw [str2num_dec]
    split
    · exact ih _ (wrapInt_range _)
    · exact hr

/-- Whatever the text and the base, `str2num` returns a value of type `int`. -/
theorem str2num_range (t : List Char) (base : Int) :
    -2147483648 ≤ str2num t base ∧ str2num t base < 2147483648 := by
  unfold str2num
  have h10 := str2num_dec_range t 0 (by decide)
  have h16 := str2num_hex_range t 0 (by decide)
  split_ifs <;> simp only [] <;> omega

theorem eq_wrapInt_of_toU32 (x : Int) (n : Nat)
    (hr : -2147483648 ≤ x ∧ x < 2147483648) (h : toU32 x = n % 4294967296) :
    x = wrapInt (n : Int) := by
  unfold toU32 at h
  unfold wrapInt
  omega

theorem str2num_hex_value (t : List Char) (ht : ∀ c ∈ t, c ∈ hexDigits) :
    str2num t 16 = wrapInt (numeral 16 t : Int) :=
  eq_wrapInt_of_toU32 _ _ (str2num_range t 16) (toU32_str2num_hex t ht)

theorem char_of_code (c : Char) (n : Nat) (h : code c = (n : Int)) : c = Char.ofNat n := by
  unfold code at h
  have : c.toNat = n := by exact_mod_cast h
  rw [← this, Char.ofNat_toNat]

theorem mem_decDigits_of_test (c : Char)
    (h : code c ≠ 0 ∧ code c ≥ code '0' ∧ code c ≤ code '9') : c ∈ decDigits := by
  obtain ⟨_, h1, h2⟩ := h
  have e0 : code '0' = 48 := by decide
  have e9 : code '9' = 57 := by decide
  rw [e0] at h1
  rw [e9] at h2
  obtain ⟨n, hn⟩ : ∃ n : Nat, code c = (n : Int) := ⟨c.toNat, rfl⟩
  rw [hn] at h1 h2
  have hc := char_of_code c n hn
  have h1' : 48 ≤ n := by exact_mod_cast h1
  have h2' : n ≤ 57 := by exact_mod_cast h2
  subst hc
  interval_cases n <;> decide

theorem mem_hexDigits_of_test (c : Char)
    (h : (code c ≠ 0 ∧ code c ≥ code '0' ∧ code c ≤ code '9') ∨
      (code c ≥ code 'a' ∧ code c ≤ code 'f')) : c ∈ hexDigits := by
  rcases h with h | ⟨h1, h2⟩
  · exact List.mem_append_left _ (mem_decDigits_of_test c h)
  · have ea : code 'a' = 97 := by decide
    have ef : code 'f' = 102 := by decide
    rw [ea] at h1
    rw [ef] at h2
    obtain ⟨n, hn⟩ : ∃ n : Nat, code c = (n : Int) := ⟨c.toNat, rfl⟩
    rw [hn] at h1 h2
    have hc := char_of_code c n hn
    have h1' : 97 ≤ n := by exact_mod_cast h1
    have h2' : n ≤ 102 := by exact_mod_cast h2
    subst hc
    interval_cases n <;> decide

theorem str2num_dec_stops (t : List Char) (hn : NulFree t) (hbad : ∃ c ∈ t, c ∉ decDigits)
    (ret : Int) : ∃ c rest, (str2num_dec t ret).2 = c :: rest ∧ c ≠ NUL := by
  induction t generalizing ret with
  | nil => simp at hbad
  | cons c cs ih =>
    rw [str2num_dec]
    split
    · next hc =>
      have hmem := mem_decDigits_of_test c hc
      obtain ⟨d, hd, hdbad⟩ := hbad
      rcases List.mem_cons.1 hd with rfl | hd'
      · exact absurd hmem hdbad
      · exact ih (fun x hx => hn x (List.mem_cons_of_mem _ hx)) ⟨d, hd', hdbad⟩ _
    · exact ⟨c, cs, rfl, hn c (List.mem_cons_self _ _)⟩

theorem str2num_hex_stops (t : List Char) (hn : NulFree t) (hbad : ∃ c ∈ t, c ∉ hexDigits)
    (ret : Int) : ∃ c rest, (str2num_hex t ret).2 = c :: rest ∧ c ≠ NUL := by
  induction t generalizing ret with
  | nil => simp at hbad
  | cons c cs ih =>
    rw [str2num_hex]
    split
    · next hc =>
      have hmem := mem_hexDigits_of_test c hc
      obtain ⟨d, hd, hdbad⟩ := hbad
      rcases List.mem_cons.1 hd with rfl | hd'
      · exact absurd hmem hdbad
      · exact ih (fun x hx => hn x (List.mem_cons_of_mem _ hx)) ⟨d, hd', hdbad⟩ _
    · exact ⟨c, cs, rfl, hn c (List.mem_cons_self _ _)⟩

theorem code_charAt_cons (c : Char) (rest : List Char) (h : c ≠ NUL) :
    code (charAt (c :: rest) 0) ≠ 0 := by
  simpa [charAt, code_eq_zero_iff] using h

/-! ## Permission codec and number parser: the claims -/

theorem str2perm_returns (s : List Char) :
    str2perm s = Outcome.ret (str2perm_loop s 0 &&& not32 (char2perm 'P')) := by
  simp [str2perm]

/-- C1: for every input string, whatever its characters, `str2perm` returns a
mask whose Present bit (`PTE_P`, bit 0) is clear. -/
theorem str2perm_present_clear (s : List Char) :
    ∃ m, str2perm s = Outcome.ret m ∧ m &&& PTE_P = 0 ∧ m.testBit 0 = false := by
  refine ⟨_, str2perm_returns s, ?_, ?_⟩
  · have h : not32 (char2perm 'P') &&& PTE_P = 0 := by decide
    rw [Nat.and_assoc, h, Nat.and_zero]
  · have h : (not32 (char2perm 'P')).testBit 0 = false := by decide
    rw [Nat.testBit_and, h, Bool.and_false]

/-- C2 (the code at the failing input): on the string `X`, whose letter names no
flag, `str2perm` does not panic but returns the mask `0xfffffffe`; indeed no
string at all makes `str2perm` panic, the test `perm < 0` being on an unsigned
value. -/
theorem str2perm_unknown_letter_returns :
    'X' ∉ mnemonics ∧ str2perm ['X'] = Outcome.ret 4294967294 ∧
      ∀ (s : List Char) (msg : String), str2perm s ≠ Outcome.panic msg := by
  refine ⟨by decide, by decide, ?_⟩
  intro s msg h
  rw [str2perm_returns] at h
  cases h

/-- C3 (counterexample): the token `ffffffff` consists of hexadecimal digits, yet
`str2num` returns `-1` on it, the very value that reports a failure. -/
theorem str2num_hex_ffffffff_is_failure_value :
    (∀ c ∈ ['f', 'f', 'f', 'f', 'f', 'f', 'f', 'f'], c ∈ hexDigits) ∧
      ¬ (str2num ['f', 'f', 'f', 'f', 'f', 'f', 'f', 'f'] 16 =
            wrapInt (numeral 16 ['f', 'f', 'f', 'f', 'f', 'f', 'f', 'f'] : Int) ∧
          str2num ['f', 'f', 'f', 'f', 'f', 'f', 'f', 'f'] 16 ≠ -1) := by
  decide

/-- C3 (amended): for every token of characters `0`-`9`, `a`-`f`, of any length,
`str2num(t, 16)` returns the value of the base-16 numeral `t` wrapped to a 32-bit
`int`; that result is the failure value `-1` exactly when the numeral is
`0xffffffff` modulo `2^32`, and is distinct from it otherwise. -/
theorem str2num_hex_correct (t : List Char) (ht : ∀ c ∈ t, c ∈ hexDigits) :
    str2num t 16 = wrapInt (numeral 16 t : Int) ∧
      toU32 (str2num t 16) = numeral 16 t % 4294967296 ∧
      (str2num t 16 = -1 ↔ numeral 16 t % 4294967296 = 4294967295) := by
  have hv := str2num_hex_value t ht
  have hu := toU32_str2num_hex t ht
  refine ⟨hv, hu, ?_⟩
  rw [hv]
  unfold wrapInt
  omega

theorem str2num_hex_correct_witness :
    str2num ['3', 'a', '0', '0'] 16 = wrapInt (numeral 16 ['3', 'a', '0', '0'] : Int) ∧
      toU32 (str2num ['3', 'a', '0', '0'] 16) = numeral 16 ['3', 'a', '0', '0'] % 4294967296 ∧
      (str2num ['3', 'a', '0', '0'] 16 = -1 ↔
        numeral 16 ['3', 'a', '0', '0'] % 4294967296 = 4294967295) :=
  str2num_hex_correct ['3', 'a', '0', '0'] (by decide)

/-- C4: a token (a C string, so free of NUL) that contains a character which is
not a decimal digit makes `str2num(t, 10)` return `-1`, and one that contains a
character which is not among `0`-`9`, `a`-`f` makes `str2num(t, 16)` return `-1`,
wherever the character stands. -/
theorem str2num_rejects_non_digit (t : List Char) (hn : NulFree t) :
    ((∃ c ∈ t, c ∉ decDigits) → str2num t 10 = -1) ∧
      ((∃ c ∈ t, c ∉ hexDigits) → str2num t 16 = -1) := by
  constructor
  · intro hbad
    obtain ⟨c, rest, hrest, hc⟩ := str2num_dec_stops t hn hbad 0
    simp only [str2num, if_true, hrest]
    rw [if_pos (code_charAt_cons c rest hc)]
  · intro hbad
    obtain ⟨c, rest, hrest, hc⟩ := str2num_hex_stops t hn hbad 0
    simp only [str2num, show ¬ ((16 : Int) = 10) by decide, if_false, if_true, hrest]
    rw [if_pos (code_charAt_cons c rest hc)]

theorem str2num_rejects_non_digit_witness :
    NulFree ['1', '2', 'A', '0', 'x'] ∧ str2num ['1', '2', 'A', '0', 'x'] 10 = -1 ∧
      str2num ['1', '2', 'A', '0', 'x'] 16 = -1 :=
  ⟨by unfold NulFree; decide,
    (str2num_rejects_non_digit ['1', '2', 'A', '0', 'x'] (by unfold NulFree; decide)).1
      ⟨'A', by decide, by decide⟩,
    (str2num_rejects_non_digit ['1', '2', 'A', '0', 'x'] (by unfold NulFree; decide)).2
      ⟨'A', by decide, by decide⟩⟩

/-! ## Range resolution: auxiliary facts -/

theorem digitChar_hex (k : Nat) (hk : k < 16) :
    Nat.digitChar k ∈ hexDigits ∧ digitVal (Nat.digitChar k) = k := by
  interval_cases k <;> decide

theorem numeral_append_single (base : Nat) (pre : List Char) (d : Char) :
    numeral base (pre ++ [d]) = base * numeral base pre + digitVal d := by
  simp [numeral, List.foldl_append]

theorem toDigitsCore_hex (f : Nat) : ∀ (n : Nat) (ds : List Char), n < f →
    ∃ pre, Nat.toDigitsCore 16 f n ds = pre ++ ds ∧ (∀ c ∈ pre, c ∈ hexDigits) ∧
      numeral 16 pre = n := by
  induction f with
  | zero => intro n ds h; omega
  | succ f ih =>
    intro n ds hn
    obtain ⟨hmem, hval⟩ := digitChar_hex (n % 16) (Nat.mod_lt _ (by decide))
    rw [Nat.toDigitsCore]
    by_cases h0 : n / 16 = 0
    · refine ⟨[Nat.digitChar (n % 16)], by simp [h0], ?_, ?_⟩
      · intro c hc
        rw [List.mem_singleton.1 hc]
        exact hmem
      · simp only [numeral, List.foldl_cons, List.foldl_nil, hval]
        omega
    · obtain ⟨pre, hpre, hall, hnum⟩ := ih (n / 16) (Nat.digitChar (n % 16) :: ds) (by omega)
      refine ⟨pre ++ [Nat.digitChar (n % 16)], by simp [h0, hpre], ?_, ?_⟩
      · intro c hc
        rcases List.mem_append.1 hc with h | h
        · exact hall c h
        · rw [List.mem_singleton.1 h]
          exact hmem
      · rw [numeral_append_single, hnum, hval]
        omega

/-- The text `hexText v` consists of hexadecimal digits and denotes `v`. -/
theorem hexText_spec (v : Nat) : (∀ c ∈ hexText v, c ∈ hexDigits) ∧ numeral 16 (hexText v) = v := by
  obtain ⟨pre, hpre, hall, hnum⟩ := toDigitsCore_hex (v + 1) v [] (Nat.lt_succ_self v)
  have : hexText v = pre := by simpa [hexText, Nat.toDigits] using hpre
  rw [this]
  exact ⟨hall, hnum⟩

theorem IS_HEX_iff_begins_0x (a : List Char) : IS_HEX a = true ↔ ['0', 'x'] <+: a := by
  rcases a with _ | ⟨c, _ | ⟨d, t⟩⟩
  · simp [IS_HEX, charAt]
    decide
  · have hx : ¬ (NUL = 'x') := by decide
    simp [IS_HEX, charAt, hx]
  · simp only [IS_HEX, charAt, List.getD_cons_zero, List.getD_cons_succ, Bool.and_eq_true,
      beq_iff_eq, List.cons_prefix_cons, List.nil_prefix, and_true]
    constructor
    · rintro ⟨rfl, rfl⟩
      exact ⟨rfl, rfl⟩
    · rintro ⟨rfl, rfl⟩
      exact ⟨rfl, rfl⟩

theorem IS_HEX_0x (t : List Char) : IS_HEX ('0' :: 'x' :: t) = true := by
  simp [IS_HEX, charAt]

theorem HEX_VAL_0x (t : List Char) : HEX_VAL ('0' :: 'x' :: t) = str2num t 16 := rfl

theorem toU32_HEX_VAL_hexText (v : Nat) (hv : v < 4294967296) :
    toU32 (HEX_VAL ('0' :: 'x' :: hexText v)) = v := by
  rw [HEX_VAL_0x, toU32_str2num_hex _ (hexText_spec v).1, (hexText_spec v).2]
  exact Nat.mod_eq_of_lt hv

theorem START_hexText (v : Nat) (hv : v < 4294967296) :
    START ('0' :: 'x' :: hexText v) = v - v % 4096 := by
  rw [START, toU32_HEX_VAL_hexText v hv, ROUNDDOWN, PGSIZE]

theorem IS_HEX_decDigits (d : List Char) (hd : ∀ c ∈ d, c ∈ decDigits) : IS_HEX d = false := by
  rcases d with _ | ⟨a, _ | ⟨b, t⟩⟩
  · decide
  · have hx : ¬ (NUL = 'x') := by decide
    simp [IS_HEX, charAt, hx]
  · have hb : b ∈ decDigits := hd b (by simp)
    have hne : ¬ (b = 'x') := by
      rintro rfl
      revert hb
      decide
    simp [IS_HEX, charAt, hne]

/-- Once the argument count exceeds one and `argv[1]` begins with `0x`, the body
of `validate_and_retrieve` reduces to its two assignments: the tests of line 117
never fire. -/
theorem validate_and_retrieve_eq (argc : Int) (argv : List (List Char)) (hint : String)
    (arg1 : List Char) (n : Nat) (hargc : 1 < argc) (h1 : argv[1]? = some arg1)
    (hx : IS_HEX arg1 = true) (hn : N_PAGES argc (START arg1) argv = some n) :
    validate_and_retrieve argc argv hint = Outcome.ret (START arg1, n) := by
  unfold validate_and_retrieve
  rw [if_neg (by omega), h1]
  simp only [hx, not_true_eq_false, if_false, hn]
  simp

theorem argv_one (cmd a1 : List Char) (rest : List (List Char)) :
    (cmd :: a1 :: rest)[1]? = some a1 := by
  simp

theorem N_PAGES_hex_end (argc : Int) (va : Nat) (cmd a1 : List Char) (e : Nat)
    (rest : List (List Char)) (hargc : argc ≠ 2) (he : e < 4294967296) :
    N_PAGES argc va (cmd :: a1 :: ('0' :: 'x' :: hexText e) :: rest) =
      some (sub32 (ROUNDUP e 4096) va / 4096) := by
  unfold N_PAGES
  rw [if_neg hargc]
  simp only [List.getElem?_cons_succ, List.getElem?_cons_zero, IS_HEX_0x, if_true,
    toU32_HEX_VAL_hexText e he, PGSIZE]

theorem N_PAGES_dec (argc : Int) (va : Nat) (cmd a1 d : List Char)
    (rest : List (List Char)) (hargc : argc ≠ 2) (hd : ∀ c ∈ d, c ∈ decDigits) :
    N_PAGES argc va (cmd :: a1 :: d :: rest) = some (numeral 10 d % 4294967296) := by
  unfold N_PAGES
  rw [if_neg hargc]
  simp only [List.getElem?_cons_succ, List.getElem?_cons_zero, IS_HEX_decDigits d hd,
    Bool.false_eq_true, if_false, DEC_VAL, toU32_str2num_dec d hd]

/-! ## Range resolution: the claims -/

/-- C5: for every address `v < 2^32` written as `0x` followed by its lowercase
hexadecimal digits, `validate_and_retrieve` with that single address argument
(`argc = 2`) returns `n_pages = 1` and `va_start = v - v mod 4096`. -/
theorem validate_and_retrieve_single_address (v : Nat) (hv : v < 4294967296)
    (cmd : List Char) (rest : List (List Char)) (hint : String) :
    validate_and_retrieve 2 (cmd :: ('0' :: 'x' :: hexText v) :: rest) hint =
      Outcome.ret (v - v % 4096, 1) := by
  rw [validate_and_retrieve_eq 2 _ hint _ 1 (by decide) (argv_one _ _ _) (IS_HEX_0x _) (by simp [N_PAGES]),
    START_hexText v hv]

theorem validate_and_retrieve_single_address_witness :
    validate_and_retrieve 2 [['s', 'm', 'p', 's'], '0' :: 'x' :: hexText 15036] "" =
      Outcome.ret (15036 - 15036 % 4096, 1) :=
  validate_and_retrieve_single_address 15036 (by decide) ['s', 'm', 'p', 's'] [] ""

/-- C6 (counterexample): for `start = 0x0` and `end = 0xfffff001`, two 32-bit
addresses with `end > start`, `validate_and_retrieve` returns `n_pages = 0`,
which is neither the ceiling of `(end - va_start) / 4096` (that is `2^20`) nor
enough for `va_start + n_pages * 4096` to reach `end`. -/
theorem validate_and_retrieve_hex_end_wraps :
    hexText 0 = ['0'] ∧ hexText 4294963201 = ['f', 'f', 'f', 'f', 'f', '0', '0', '1'] ∧
      (0 : Nat) < 4294963201 ∧ (4294963201 : Nat) < 4294967296 ∧
      validate_and_retrieve 3
        [['s', 'm', 'p', 's'], '0' :: 'x' :: hexText 0, '0' :: 'x' :: hexText 4294963201] "" =
        Outcome.ret (0, 0) ∧
      (0 : Nat) ≠ (4294963201 - (0 - 0 % 4096) + 4095) / 4096 ∧
      ¬ ((0 - 0 % 4096) + 0 * 4096 ≥ 4294963201) := by
  decide

/-- C6 (amended): for every pair of 32-bit addresses given as `0x`-prefixed
lowercase hex arguments with `end > start`, unless `start < 0x1000` and
`end > 0xfffff000` together, `validate_and_retrieve` (`argc = 3`) returns
`va_start = start - start mod 4096` and `n_pages = ceil((end - va_start) / 4096)`,
and `va_start + n_pages * 4096 >= end`. -/
theorem validate_and_retrieve_hex_end (s e : Nat) (hs : s < 4294967296) (he : e < 4294967296)
    (hse : s < e) (hnw : e ≤ 4294963200 ∨ 4096 ≤ s)
    (cmd : List Char) (rest : List (List Char)) (hint : String) :
    validate_and_retrieve 3
        (cmd :: ('0' :: 'x' :: hexText s) :: ('0' :: 'x' :: hexText e) :: rest) hint =
        Outcome.ret (s - s % 4096, (e - (s - s % 4096) + 4095) / 4096) ∧
      (s - s % 4096) + (e - (s - s % 4096) + 4095) / 4096 * 4096 ≥ e := by
  constructor
  · rw [validate_and_retrieve_eq 3 _ hint _ _ (by decide) (argv_one _ _ _) (IS_HEX_0x _)
        (N_PAGES_hex_end 3 _ cmd _ e rest (by decide) he), START_hexText s hs]
    congr 2
    unfold sub32 ROUNDUP ROUNDDOWN
    omega
  · omega

theorem validate_and_retrieve_hex_end_witness :
    validate_and_retrieve 3
        [['s', 'm', 'p', 's'], '0' :: 'x' :: hexText 12288, '0' :: 'x' :: hexText 20480] "" =
        Outcome.ret (12288 - 12288 % 4096, (20480 - (12288 - 12288 % 4096) + 4095) / 4096) ∧
      (12288 - 12288 % 4096) + (20480 - (12288 - 12288 % 4096) + 4095) / 4096 * 4096 ≥ 20480 :=
  validate_and_retrieve_hex_end 12288 20480 (by decide) (by decide) (by decide)
    (Or.inl (by decide)) ['s', 'm', 'p', 's'] [] ""

/-- C7 (counterexample): the second argument `4294967296` consists of decimal
digits and denotes `2^32`, yet `validate_and_retrieve` returns `n_pages = 0`. -/
theorem validate_and_retrieve_count_wraps :
    (∀ c ∈ ['4', '2', '9', '4', '9', '6', '7', '2', '9', '6'], c ∈ decDigits) ∧
      numeral 10 ['4', '2', '9', '4', '9', '6', '7', '2', '9', '6'] = 4294967296 ∧
      validate_and_retrieve 3 [['s', 'm', 'p', 's'], ['0', 'x', '3', '0', '0', '0'],
        ['4', '2', '9', '4', '9', '6', '7', '2', '9', '6']] "" = Outcome.ret (12288, 0) := by
  decide

/-- C7 (amended): for every argument list whose first argument begins with `0x`
and whose second argument `d` consists only of decimal digits,
`validate_and_retrieve` returns `n_pages` equal to the value of `d` read in base
10 modulo `2^32` (the value itself when it is below `2^32`), whatever the start
address. -/
theorem validate_and_retrieve_decimal_count (cmd arg1 d : List Char) (rest : List (List Char))
    (hint : String) (h1 : ['0', 'x'] <+: arg1) (hd : ∀ c ∈ d, c ∈ decDigits) :
    validate_and_retrieve 3 (cmd :: arg1 :: d :: rest) hint =
      Outcome.ret (START arg1, numeral 10 d % 4294967296) :=
  validate_and_retrieve_eq 3 _ hint arg1 _ (by decide) (argv_one _ _ _) ((IS_HEX_iff_begins_0x arg1).2 h1)
    (N_PAGES_dec 3 _ cmd arg1 d rest (by decide) hd)

theorem validate_and_retrieve_decimal_count_witness :
    validate_and_retrieve 3
        [['c', 'l', 'p'], ['0', 'x', '3', '0', '0', '0'], ['1', '0', '0'], ['W']] "" =
      Outcome.ret (START ['0', 'x', '3', '0', '0', '0'], numeral 10 ['1', '0', '0'] % 4294967296) :=
  validate_and_retrieve_decimal_count ['c', 'l', 'p'] ['0', 'x', '3', '0', '0', '0']
    ['1', '0', '0'] [['W']] "" (by decide) (by decide)

/-- C8: `validate_and_retrieve` ends in the panic, producing no range, whenever
the first address argument is missing (`argc <= 1`) or the first argument does
not begin with the two characters `0x`. -/
theorem validate_and_retrieve_usage_panic (argc : Int) (argv : List (List Char)) (hint : String)
    (h : argc ≤ 1 ∨ ∃ arg1, argv[1]? = some arg1 ∧ ¬ ['0', 'x'] <+: arg1) :
    validate_and_retrieve argc argv hint = Outcome.panic "hint\n" := by
  unfold validate_and_retrieve
  by_cases hargc : argc ≤ 1
  · rw [if_pos hargc]
  · rcases h with h | ⟨arg1, h1, hx⟩
    · exact absurd h hargc
    · rw [if_neg hargc, h1]
      have hx' : ¬ (IS_HEX arg1 = true) := fun hh => hx ((IS_HEX_iff_begins_0x arg1).1 hh)
      simp [hx']

theorem validate_and_retrieve_usage_panic_witness :
    validate_and_retrieve 1 [['s', 'm', 'p', 's']] "" = Outcome.panic "hint\n" ∧
      validate_and_retrieve 2 [['s', 'm', 'p', 's'], ['3', '0', '0', '0']] "" =
        Outcome.panic "hint\n" :=
  ⟨validate_and_retrieve_usage_panic 1 [['s', 'm', 'p', 's']] "" (Or.inl (by decide)),
    validate_and_retrieve_usage_panic 2 [['s', 'm', 'p', 's'], ['3', '0', '0', '0']] ""
      (Or.inr ⟨['3', '0', '0', '0'], by decide, by decide⟩)⟩

/-- C9 (counterexample): `smps 0x3000 0` resolves to a page count of zero,
`str2num` fails (returns `-1`) on the first argument of `smps 0x30zz` and on the
second argument of `smps 0x3000 12ab`; in all three cases
`validate_and_retrieve` returns a range instead of panicking. -/
theorem validate_and_retrieve_no_input_error :
    validate_and_retrieve 3 [['s', 'm', 'p', 's'], ['0', 'x', '3', '0', '0', '0'], ['0']] "" =
        Outcome.ret (12288, 0) ∧
      (str2num ['3', '0', 'z', 'z'] 16 = -1 ∧
        validate_and_retrieve 2 [['s', 'm', 'p', 's'], ['0', 'x', '3', '0', 'z', 'z']] "" =
          Outcome.ret (4294963200, 1)) ∧
      (str2num ['1', '2', 'a', 'b'] 10 = -1 ∧
        validate_and_retrieve 3
          [['s', 'm', 'p', 's'], ['0', 'x', '3', '0', '0', '0'], ['1', '2', 'a', 'b']] "" =
          Outcome.ret (12288, 4294967295)) := by
  decide

/-- C9 (amended): a resolved page count of zero is not an input error. For every
address `v < 0xffffffff` given as `0x` and its hex digits, a second argument of
decimal digits whose value is zero (such as `0`), or a `0x` end address `e` in the
page that ends at `va_start` (`va_start - 4096 < e <= va_start`), makes
`validate_and_retrieve` return the range `(va_start, 0)` with
`va_start = v - v mod 4096`; it does not panic. -/
theorem validate_and_retrieve_zero_count (v : Nat) (hv : v < 4294967295)
    (cmd : List Char) (rest : List (List Char)) (hint : String) :
    (∀ d : List Char, (∀ c ∈ d, c ∈ decDigits) → numeral 10 d = 0 →
        validate_and_retrieve 3 (cmd :: ('0' :: 'x' :: hexText v) :: d :: rest) hint =
          Outcome.ret (v - v % 4096, 0)) ∧
      (∀ e : Nat, v - v % 4096 < e + 4096 → e ≤ v - v % 4096 →
        validate_and_retrieve 3
            (cmd :: ('0' :: 'x' :: hexText v) :: ('0' :: 'x' :: hexText e) :: rest) hint =
          Outcome.ret (v - v % 4096, 0)) := by
  have hv' : v < 4294967296 := by omega
  constructor
  · intro d hd h0
    rw [validate_and_retrieve_eq 3 _ hint _ _ (by decide) (argv_one _ _ _) (IS_HEX_0x _)
        (N_PAGES_dec 3 _ cmd _ d rest (by decide) hd), START_hexText v hv', h0]
  · intro e h1 h2
    have he : e < 4294967296 := by omega
    rw [validate_and_retrieve_eq 3 _ hint _ _ (by decide) (argv_one _ _ _) (IS_HEX_0x _)
        (N_PAGES_hex_end 3 _ cmd _ e rest (by decide) he), START_hexText v hv']
    congr 2
    unfold sub32 ROUNDUP ROUNDDOWN
    omega

theorem validate_and_retrieve_zero_count_witness :
    validate_and_retrieve 3 [['s', 'm', 'p', 's'], '0' :: 'x' :: hexText 12288, ['0', '0']] "" =
        Outcome.ret (12288 - 12288 % 4096, 0) ∧
      validate_and_retrieve 3
          [['s', 'm', 'p', 's'], '0' :: 'x' :: hexText 12288, '0' :: 'x' :: hexText 12288] "" =
        Outcome.ret (12288 - 12288 % 4096, 0) :=
  ⟨(validate_and_retrieve_zero_count 12288 (by decide) ['s', 'm', 'p', 's'] [] "").1
      ['0', '0'] (by decide) (by decide),
    (validate_and_retrieve_zero_count 12288 (by decide) ['s', 'm', 'p', 's'] [] "").2
      12288 (by decide) (by decide)⟩

/-- C10: whenever `validate_and_retrieve` returns, in any of the three range
forms, the `va_start` it returns is a multiple of the page size 4096. -/
theorem validate_and_retrieve_aligned (argc : Int) (argv : List (List Char)) (hint : String)
    (va n : Nat) (h : validate_and_retrieve argc argv hint = Outcome.ret (va, n)) :
    va % 4096 = 0 ∧ 4096 ∣ va := by
  have key : va % 4096 = 0 := by
    unfold validate_and_retrieve at h
    by_cases hargc : argc ≤ 1
    · rw [if_pos hargc] at h
      cases h
    · rw [if_neg hargc] at h
      cases h1 : argv[1]? with
      | none =>
        simp only [h1] at h
        cases h
      | some arg1 =>
        simp only [h1] at h
        by_cases hx : IS_HEX arg1 = true
        · cases hn : N_PAGES argc (START arg1) argv with
          | none => simp [hx, hn] at h
          | some m =>
            simp only [hx, hn, not_true_eq_false, if_false, Nat.not_lt_zero, or_self,
              Outcome.ret.injEq, Prod.mk.injEq] at h
            rw [← h.1]
            unfold START ROUNDDOWN PGSIZE
            omega
        · simp [hx] at h
  exact ⟨key, Nat.dvd_of_mod_eq_zero key⟩

theorem validate_and_retrieve_aligned_witness :
    validate_and_retrieve 3 [['s', 'm', 'p', 's'], ['0', 'x', '3', 'a', 'b', 'c'],
        ['0', 'x', '5', '0', '0', '0']] "" = Outcome.ret (12288, 2) ∧
      12288 % 4096 = 0 ∧ 4096 ∣ 12288 :=
  ⟨by decide,
    validate_and_retrieve_aligned 3 [['s', 'm', 'p', 's'], ['0', 'x', '3', 'a', 'b', 'c'],
      ['0', 'x', '5', '0', '0', '0']] "" 12288 2 (by decide)⟩

/-! ## Page-table walk and binary rendering -/

theorem bind_ret {α β : Type} (a : α) (f : α → Outcome β) : (Outcome.ret a).bind f = f a := rfl

theorem bind_eq_ret {α β : Type} (x : Outcome α) (f : α → Outcome β) (b : β)
    (h : x.bind f = Outcome.ret b) : ∃ a, x = Outcome.ret a ∧ f a = Outcome.ret b := by
  cases x with
  | ret a => exact ⟨a, rfl, h⟩
  | panic msg => cases h
  | fault => cases h

/-- C17: the test `P_PDE && P_PTE` holds exactly when the directory entry at
index `PDX(va)` has its Present bit set and the entry at index `PTX(va)` of the
table at that directory entry's frame address has its Present bit set; when the
directory entry's Present bit is clear the test is false whatever the tables
hold, even when no table can be read at all, so no table entry is read. -/
theorem mapped_test_short_circuit (m : PageTables) (va : Nat) :
    (mapped_test m va = Outcome.ret true ↔
      m.kern_pgdir (PDX va) &&& PTE_P ≠ 0 ∧
        ∃ table, m.frame (PTE_ADDR (m.kern_pgdir (PDX va))) = some table ∧
          table (PTX va) &&& PTE_P ≠ 0) ∧
    (m.kern_pgdir (PDX va) &&& PTE_P = 0 →
      ∀ frames : Nat → Option (Nat → Nat),
        mapped_test (PageTables.mk m.kern_pgdir frames) va = Outcome.ret false) := by
  constructor
  · unfold mapped_test P_PDE P_PTE PTE PDE
    by_cases hp : m.kern_pgdir (PDX va) &&& PTE_P ≠ 0
    · rw [if_pos hp]
      cases hf : m.frame (PTE_ADDR (m.kern_pgdir (PDX va))) with
      | none => simp [Outcome.bind, hp]
      | some table => simp [Outcome.bind, hp]
    · rw [if_neg hp]
      simp [hp]
  · intro h0 frames
    unfold mapped_test P_PDE PDE
    simp [h0]

theorem mapped_test_short_circuit_witness :
    mapped_test (PageTables.mk sample_tables.kern_pgdir fun _ => none) 4194304 =
      Outcome.ret false :=
  (mapped_test_short_circuit sample_tables 4194304).2 (by decide) fun _ => none

theorem char_of_bit (num : Nat) : Char.ofNat (num % 2 + '0'.toNat) = bit_char (num.testBit 0) := by
  rcases Nat.mod_two_eq_zero_or_one num with h | h <;> simp [h, bit_char, Nat.testBit_zero]

theorem num2binstr_get (bit : Nat) : ∀ (num : Nat) (store : List Char), bit ≤ store.length →
    (num2binstr num store bit).length = store.length ∧
      ∀ i, (num2binstr num store bit)[i]? =
        if i < bit then some (bit_char (num.testBit (bit - 1 - i))) else store[i]? := by
  induction bit with
  | zero => intro num store _; simp [num2binstr]
  | succ b ih =>
    intro num store hb
    rw [num2binstr]
    obtain ⟨hlen, hget⟩ := ih (num / 2) (store.set b (Char.ofNat (num % 2 + '0'.toNat)))
      (by rw [List.length_set]; omega)
    refine ⟨by rw [hlen, List.length_set], fun i => ?_⟩
    rw [hget i]
    by_cases h1 : i < b
    · rw [if_pos h1, if_pos (by omega), Nat.testBit_div_two]
      congr 3
      omega
    · rw [if_neg h1]
      by_cases h2 : i = b
      · subst h2
        rw [if_pos (by omega), List.getElem?_set, if_pos rfl, if_pos (by omega), char_of_bit]
        congr 3
        omega
      · rw [if_neg (by omega), List.getElem?_set, if_neg (by omega)]

theorem flag_test (x k : Nat) : decide (x &&& 2 ^ k ≠ 0) = x.testBit k := by
  rw [Nat.and_two_pow]
  cases h : x.testBit k <;> simp [Nat.pos_pow_of_pos]

theorem take_nine (l : List Char) (c0 c1 c2 c3 c4 c5 c6 c7 c8 : Char)
    (h0 : l[0]? = some c0) (h1 : l[1]? = some c1) (h2 : l[2]? = some c2)
    (h3 : l[3]? = some c3) (h4 : l[4]? = some c4) (h5 : l[5]? = some c5)
    (h6 : l[6]? = some c6) (h7 : l[7]? = some c7) (h8 : l[8]? = some c8) :
    l.take 9 = [c0, c1, c2, c3, c4, c5, c6, c7, c8] := by
  rcases l with _ | ⟨a0, _ | ⟨a1, _ | ⟨a2, _ | ⟨a3, _ | ⟨a4, _ | ⟨a5, _ | ⟨a6, _ | ⟨a7, _ | ⟨a8, t⟩⟩⟩⟩⟩⟩⟩⟩⟩ <;>
    simp_all

/-- The nine characters `num2binstr(num, store, 9)` writes, flag by flag. -/
theorem num2binstr_nine (num : Nat) (store : List Char) (h : 9 ≤ store.length) :
    (num2binstr num store 9).take 9 =
      [bit_char (num.testBit 8), bit_char (num.testBit 7), bit_char (num.testBit 6),
        bit_char (num.testBit 5), bit_char (num.testBit 4), bit_char (num.testBit 3),
        bit_char (num.testBit 2), bit_char (num.testBit 1), bit_char (num.testBit 0)] := by
  obtain ⟨_, hget⟩ := num2binstr_get 9 num store h
  apply take_nine <;> rw [hget] <;> simp

theorem PERM_of_PTE (m : PageTables) (va pte : Nat) (h : PTE m va = Outcome.ret pte) :
    PERM m va = Outcome.ret (pte % 4096) := by
  unfold PERM
  rw [h, bind_ret]
  unfold PTE_ADDR
  congr 1
  omega

theorem testBit_low (pte k : Nat) (hk : k < 12) : (pte % 4096).testBit k = pte.testBit k := by
  have h : (4096 : Nat) = 2 ^ 12 := by norm_num
  rw [h, Nat.testBit_mod_two_pow]
  simp [hk]

/-- C18: for `n` within the buffer, `num2binstr(num, store, n)` writes exactly
`store[0..n-1]` (the buffer keeps its length and its other characters), each
written character is `0` or `1`, and `store[i]` is `1` exactly when bit
`n - 1 - i` of `num` is set; for `n = 9` and `num = PERM` of a page-table entry the
nine characters show, in order, the entry's Global, attribute-index, Dirty,
Accessed, Cache-disable, Write-through, User, Writable and Present bits. -/
theorem num2binstr_spec (num : Nat) (store : List Char) (n : Nat) (hn : n ≤ store.length) :
    (num2binstr num store n).length = store.length ∧
      (∀ i, i < n → (num2binstr num store n)[i]? = some (bit_char (num.testBit (n - 1 - i)))) ∧
      (∀ i, n ≤ i → (num2binstr num store n)[i]? = store[i]?) ∧
      (∀ (m : PageTables) (va pte : Nat), PTE m va = Outcome.ret pte → 9 ≤ store.length →
        ∃ perm, PERM m va = Outcome.ret perm ∧
          (num2binstr perm store 9).take 9 =
            [bit_char (decide (pte &&& PTE_G ≠ 0)), bit_char (decide (pte &&& PTE_PAT ≠ 0)),
              bit_char (decide (pte &&& PTE_D ≠ 0)), bit_char (decide (pte &&& PTE_A ≠ 0)),
              bit_char (decide (pte &&& PTE_PCD ≠ 0)), bit_char (decide (pte &&& PTE_PWT ≠ 0)),
              bit_char (decide (pte &&& PTE_U ≠ 0)), bit_char (decide (pte &&& PTE_W ≠ 0)),
              bit_char (decide (pte &&& PTE_P ≠ 0))]) := by
  obtain ⟨hlen, hget⟩ := num2binstr_get n num store hn
  refine ⟨hlen, fun i hi => by rw [hget i, if_pos hi], fun i hi => by rw [hget i, if_neg (by omega)],
    ?_⟩
  intro m va pte hpte h9
  refine ⟨pte % 4096, PERM_of_PTE m va pte hpte, ?_⟩
  rw [num2binstr_nine _ store h9]
  have e8 : PTE_G = 2 ^ 8 := by decide
  have e7 : PTE_PAT = 2 ^ 7 := by decide
  have e6 : PTE_D = 2 ^ 6 := by decide
  have e5 : PTE_A = 2 ^ 5 := by decide
  have e4 : PTE_PCD = 2 ^ 4 := by decide
  have e3 : PTE_PWT = 2 ^ 3 := by decide
  have e2 : PTE_U = 2 ^ 2 := by decide
  have e1 : PTE_W = 2 ^ 1 := by decide
  have e0 : PTE_P = 2 ^ 0 := by decide
  rw [e8, e7, e6, e5, e4, e3, e2, e1, e0]
  simp only [flag_test]
  rw [testBit_low pte 8 (by decide), testBit_low pte 7 (by decide), testBit_low pte 6 (by decide),
    testBit_low pte 5 (by decide), testBit_low pte 4 (by decide), testBit_low pte 3 (by decide),
    testBit_low pte 2 (by decide), testBit_low pte 1 (by decide), testBit_low pte 0 (by decide)]

theorem num2binstr_spec_witness :
    (num2binstr 263 (List.replicate 10 NUL) 9).length = (List.replicate 10 NUL).length ∧
      (∀ i, i < 9 →
        (num2binstr 263 (List.replicate 10 NUL) 9)[i]? = some (bit_char (Nat.testBit 263 (9 - 1 - i)))) ∧
      (∀ i, 9 ≤ i → (num2binstr 263 (List.replicate 10 NUL) 9)[i]? = (List.replicate 10 NUL)[i]?) ∧
      ∃ perm, PERM sample_tables 12288 = Outcome.ret perm ∧
        (num2binstr perm (List.replicate 10 NUL) 9).take 9 =
          [bit_char (decide (20487 &&& PTE_G ≠ 0)), bit_char (decide (20487 &&& PTE_PAT ≠ 0)),
            bit_char (decide (20487 &&& PTE_D ≠ 0)), bit_char (decide (20487 &&& PTE_A ≠ 0)),
            bit_char (decide (20487 &&& PTE_PCD ≠ 0)), bit_char (decide (20487 &&& PTE_PWT ≠ 0)),
            bit_char (decide (20487 &&& PTE_U ≠ 0)), bit_char (decide (20487 &&& PTE_W ≠ 0)),
            bit_char (decide (20487 &&& PTE_P ≠ 0))] :=
  ⟨(num2binstr_spec 263 (List.replicate 10 NUL) 9 (by decide)).1,
    (num2binstr_spec 263 (List.replicate 10 NUL) 9 (by decide)).2.1,
    (num2binstr_spec 263 (List.replicate 10 NUL) 9 (by decide)).2.2.1,
    (num2binstr_spec 263 (List.replicate 10 NUL) 9 (by decide)).2.2.2 sample_tables 12288 20487
      (by decide) (by decide)⟩

/-! ## Letter codec against the binary rendering -/

theorem str2perm_loop_testBit (s : List Char) (hs : NulFree s) (p k : Nat) :
    (str2perm_loop s p).testBit k =
      (p.testBit k || s.any fun c => (char2perm c).testBit k) := by
  induction s generalizing p with
  | nil => simp [str2perm_loop]
  | cons c cs ih =>
    have hc : code c ≠ 0 := fun h => hs c (List.mem_cons_self _ _) ((code_eq_zero_iff c).1 h)
    rw [str2perm_loop, if_pos hc, ih (fun d hd => hs d (List.mem_cons_of_mem _ hd)),
      Nat.testBit_or, List.any_cons, Bool.or_assoc]

theorem mnemonics_nulFree (s : List Char) (hs : ∀ c ∈ s, c ∈ mnemonics) : NulFree s := by
  intro c hc h
  have := hs c hc
  rw [h] at this
  revert this
  decide

/-- The flag bits of a mnemonic letter: each letter sets the bit of its own
column and no other. -/
theorem char2perm_bits (c : Char) (hc : c ∈ mnemonics) :
    (char2perm c).testBit 8 = decide (c = 'G') ∧ (char2perm c).testBit 7 = false ∧
      (char2perm c).testBit 6 = decide (c = 'D') ∧ (char2perm c).testBit 5 = decide (c = 'A') ∧
      (char2perm c).testBit 4 = decide (c = 'C') ∧ (char2perm c).testBit 3 = decide (c = 'T') ∧
      (char2perm c).testBit 2 = decide (c = 'U') ∧ (char2perm c).testBit 1 = decide (c = 'W') ∧
      (char2perm c).testBit 0 = decide (c = 'P') := by
  simp only [mnemonics, List.mem_cons, List.mem_singleton, List.not_mem_nil, or_false] at hc
  rcases hc with h | h | h | h | h | h | h | h <;> subst h <;> decide

theorem any_letter (s : List Char) (f : Char → Bool) (x : Char)
    (hf : ∀ c ∈ s, f c = decide (c = x)) : s.any f = decide (x ∈ s) := by
  rw [Bool.eq_iff_iff]
  simp only [List.any_eq_true, decide_eq_true_eq]
  constructor
  · rintro ⟨c, hc, hfc⟩
    rw [hf c hc, decide_eq_true_eq] at hfc
    exact hfc ▸ hc
  · intro hx
    exact ⟨x, hx, by rw [hf x hx]; simp⟩

theorem any_none (s : List Char) (f : Char → Bool) (hf : ∀ c ∈ s, f c = false) :
    s.any f = false := by
  rw [Bool.eq_false_iff]
  intro h
  obtain ⟨c, hc, hfc⟩ := List.any_eq_true.1 h
  rw [hf c hc] at hfc
  cases hfc

/-- The bits of the mask `str2perm` returns on a string of mnemonic letters. -/
theorem str2perm_mask_bits (s : List Char) (hs : ∀ c ∈ s, c ∈ mnemonics) :
    ∃ perm, str2perm s = Outcome.ret perm ∧
      perm.testBit 8 = decide ('G' ∈ s) ∧ perm.testBit 7 = false ∧
      perm.testBit 6 = decide ('D' ∈ s) ∧ perm.testBit 5 = decide ('A' ∈ s) ∧
      perm.testBit 4 = decide ('C' ∈ s) ∧ perm.testBit 3 = decide ('T' ∈ s) ∧
      perm.testBit 2 = decide ('U' ∈ s) ∧ perm.testBit 1 = decide ('W' ∈ s) ∧
      perm.testBit 0 = false := by
  have hn := mnemonics_nulFree s hs
  refine ⟨_, str2perm_returns s, ?_⟩
  have hmask : not32 (char2perm 'P') = 4294967294 := by decide
  simp only [hmask, Nat.testBit_and, str2perm_loop_testBit s hn, Nat.zero_testBit, Bool.false_or]
  have b8 : Nat.testBit 4294967294 8 = true := by decide
  have b7 : Nat.testBit 4294967294 7 = true := by decide
  have b6 : Nat.testBit 4294967294 6 = true := by decide
  have b5 : Nat.testBit 4294967294 5 = true := by decide
  have b4 : Nat.testBit 4294967294 4 = true := by decide
  have b3 : Nat.testBit 4294967294 3 = true := by decide
  have b2 : Nat.testBit 4294967294 2 = true := by decide
  have b1 : Nat.testBit 4294967294 1 = true := by decide
  have b0 : Nat.testBit 4294967294 0 = false := by decide
  rw [b8, b7, b6, b5, b4, b3, b2, b1, b0]
  simp only [Bool.and_true, Bool.and_false]
  refine ⟨any_letter s _ 'G' fun c hc => (char2perm_bits c (hs c hc)).1,
    any_none s _ fun c hc => (char2perm_bits c (hs c hc)).2.1,
    any_letter s _ 'D' fun c hc => (char2perm_bits c (hs c hc)).2.2.1,
    any_letter s _ 'A' fun c hc => (char2perm_bits c (hs c hc)).2.2.2.1,
    any_letter s _ 'C' fun c hc => (char2perm_bits c (hs c hc)).2.2.2.2.1,
    any_letter s _ 'T' fun c hc => (char2perm_bits c (hs c hc)).2.2.2.2.2.1,
    any_letter s _ 'U' fun c hc => (char2perm_bits c (hs c hc)).2.2.2.2.2.2.1,
    any_letter s _ 'W' fun c hc => (char2perm_bits c (hs c hc)).2.2.2.2.2.2.2.1, trivial⟩

/-- C19: for every string `s` of mnemonic letters, `str2perm(s)` returns a mask
and the nine characters `num2binstr` renders from it, read against the columns
`GIDACTUWP`, show `1` in the column of a letter exactly when that letter occurs
in `s` and is not `P`, and `0` in the columns `I` and `P`; hence two strings with
the same set of letters, in any order and with any repetition, render alike. -/
theorem str2perm_num2binstr_columns (s : List Char) (hs : ∀ c ∈ s, c ∈ mnemonics)
    (store : List Char) (hstore : 9 ≤ store.length) :
    (∃ perm, str2perm s = Outcome.ret perm ∧
      (num2binstr perm store 9).take 9 =
        [bit_char (decide ('G' ∈ s)), '0', bit_char (decide ('D' ∈ s)),
          bit_char (decide ('A' ∈ s)), bit_char (decide ('C' ∈ s)),
          bit_char (decide ('T' ∈ s)), bit_char (decide ('U' ∈ s)),
          bit_char (decide ('W' ∈ s)), '0']) ∧
    ∀ s2 : List Char, (∀ c, c ∈ s2 ↔ c ∈ s) →
      ∃ perm perm2, str2perm s = Outcome.ret perm ∧ str2perm s2 = Outcome.ret perm2 ∧
        (num2binstr perm2 store 9).take 9 = (num2binstr perm store 9).take 9 := by
  obtain ⟨perm, hperm, h8, h7, h6, h5, h4, h3, h2, h1, h0⟩ := str2perm_mask_bits s hs
  have key : (num2binstr perm store 9).take 9 =
      [bit_char (decide ('G' ∈ s)), '0', bit_char (decide ('D' ∈ s)),
        bit_char (decide ('A' ∈ s)), bit_char (decide ('C' ∈ s)),
        bit_char (decide ('T' ∈ s)), bit_char (decide ('U' ∈ s)),
        bit_char (decide ('W' ∈ s)), '0'] := by
    rw [num2binstr_nine perm store hstore, h8, h7, h6, h5, h4, h3, h2, h1, h0]
    rfl
  refine ⟨⟨perm, hperm, key⟩, fun s2 hmem => ?_⟩
  obtain ⟨perm2, hperm2, g8, g7, g6, g5, g4, g3, g2, g1, g0⟩ :=
    str2perm_mask_bits s2 fun c hc => hs c ((hmem c).1 hc)
  refine ⟨perm, perm2, hperm, hperm2, ?_⟩
  rw [key, num2binstr_nine perm2 store hstore, g8, g7, g6, g5, g4, g3, g2, g1, g0]
  simp only [hmem]
  rfl

theorem str2perm_num2binstr_columns_witness :
    ∃ perm, str2perm ['W', 'A', 'P', 'W', 'G'] = Outcome.ret perm ∧
      (num2binstr perm (List.replicate 10 NUL) 9).take 9 =
        [bit_char (decide ('G' ∈ ['W', 'A', 'P', 'W', 'G'])), '0',
          bit_char (decide ('D' ∈ ['W', 'A', 'P', 'W', 'G'])),
          bit_char (decide ('A' ∈ ['W', 'A', 'P', 'W', 'G'])),
          bit_char (decide ('C' ∈ ['W', 'A', 'P', 'W', 'G'])),
          bit_char (decide ('T' ∈ ['W', 'A', 'P', 'W', 'G'])),
          bit_char (decide ('U' ∈ ['W', 'A', 'P', 'W', 'G'])),
          bit_char (decide ('W' ∈ ['W', 'A', 'P', 'W', 'G'])), '0'] :=
  (str2perm_num2binstr_columns ['W', 'A', 'P', 'W', 'G'] (by decide)
    (List.replicate 10 NUL) (by decide)).1

/-! ## Reports and permission changes -/

theorem range_shift {α : Type} (f : Nat → α) (k : Nat) :
    (List.range (k + 1)).map f = f 0 :: (List.range k).map fun i => f (i + 1) := by
  rw [List.range_succ_eq_map, List.map_cons, List.map_map]
  rfl

theorem loop_va (va_start cnt : Nat) :
    (va_start + cnt * PGSIZE) % 4294967296 = page_va va_start cnt := rfl

theorem marker_eq (va : Nat) :
    Cprintf.mk "0x%08x -------- --------\n" [Arg.num va] = unmapped_record va := rfl

theorem mon_showmappings_loop_unmapped (m : PageTables) (va_start : Nat) (left : Nat) :
    ∀ cnt, (∀ i, i < left → mapped_test m (page_va va_start (cnt + i)) = Outcome.ret false) →
      mon_showmappings_loop m va_start left cnt =
        Outcome.ret ((List.range left).map fun i => unmapped_record (page_va va_start (cnt + i))) := by
  induction left with
  | zero => intro cnt _; rfl
  | succ k ih =>
    intro cnt h
    have h0 : mapped_test m (page_va va_start cnt) = Outcome.ret false := h 0 (Nat.succ_pos k)
    have hfun : (fun i => unmapped_record (page_va va_start (cnt + 1 + i))) =
        fun i => unmapped_record (page_va va_start (cnt + (i + 1))) := by
      funext i
      rw [show cnt + 1 + i = cnt + (i + 1) by omega]
    have hrest := ih (cnt + 1) fun i hi => by
      have := h (i + 1) (Nat.succ_lt_succ hi)
      rwa [show cnt + (i + 1) = cnt + 1 + i by omega] at this
    rw [hfun] at hrest
    rw [mon_showmappings_loop]
    simp only [loop_va, marker_eq, h0, bind_ret, Bool.false_eq_true, if_false, hrest]
    rw [range_shift fun i => unmapped_record (page_va va_start (cnt + i))]
    rfl

theorem mon_showmappings_of_range (argc : Int) (argv : List (List Char)) (m : PageTables)
    (va_start n_pages : Nat) (out : List Cprintf)
    (hr : validate_and_retrieve argc argv smps_hint = Outcome.ret (va_start, n_pages))
    (hl : mon_showmappings_loop m va_start n_pages 0 = Outcome.ret out) :
    mon_showmappings argc argv m = Outcome.ret (0, Cprintf.mk smps_header [] :: out) := by
  unfold mon_showmappings
  rw [hr, bind_ret, hl, bind_ret]

/-- The result of `validate_and_retrieve` does not depend on the hint. -/
theorem validate_and_retrieve_hint (argc : Int) (argv : List (List Char)) (h1 h2 : String) :
    validate_and_retrieve argc argv h1 = validate_and_retrieve argc argv h2 := rfl

theorem change_permissions_of_range (argc : Int) (argv : List (List Char)) (op : Bool)
    (hint : String) (m : PageTables) (range : Nat × Nat)
    (hr : change_permissions_range argc argv hint = Outcome.ret range) :
    change_permissions argc argv op hint m = Outcome.ret m := by
  unfold change_permissions
  rw [hr, bind_ret]

theorem change_permissions_ret (argc : Int) (argv : List (List Char)) (op : Bool)
    (hint : String) (m m1 : PageTables)
    (h : change_permissions argc argv op hint m = Outcome.ret m1) : m1 = m := by
  unfold change_permissions at h
  obtain ⟨range, _, h2⟩ := bind_eq_ret _ _ _ h
  cases h2
  rfl

theorem mon_setpermissions_ret (argc : Int) (argv : List (List Char)) (m m1 : PageTables)
    (r : Int) (out : List Cprintf)
    (h : mon_setpermissions argc argv m = Outcome.ret (r, m1, out)) : m1 = m := by
  unfold mon_setpermissions at h
  obtain ⟨m2, h1, h2⟩ := bind_eq_ret _ _ _ h
  obtain ⟨shown, _, h3⟩ := bind_eq_ret _ _ _ h2
  cases h3
  exact change_permissions_ret _ _ _ _ _ _ h1

theorem mon_clearpermissions_ret (argc : Int) (argv : List (List Char)) (m m1 : PageTables)
    (r : Int) (out : List Cprintf)
    (h : mon_clearpermissions argc argv m = Outcome.ret (r, m1, out)) : m1 = m := by
  unfold mon_clearpermissions at h
  obtain ⟨m2, h1, h2⟩ := bind_eq_ret _ _ _ h
  obtain ⟨shown, _, h3⟩ := bind_eq_ret _ _ _ h2
  cases h3
  exact change_permissions_ret _ _ _ _ _ _ h1

/-- C11 (the code at the failing input): with the page `0x3000` mapped (User,
Writable, Present, frame `0x5000`), `smps 0x3000` prints the header and nothing
else: the mapped page gets no record, where the claim expects the line with its
virtual address, frame address and permission string `000000111`. -/
theorem mon_showmappings_mapped_page_silent :
    mapped_test sample_tables 12288 = Outcome.ret true ∧
      PTE sample_tables 12288 = Outcome.ret 20487 ∧
      mon_showmappings 2 [['s', 'm', 'p', 's'], ['0', 'x', '3', '0', '0', '0']] sample_tables =
        Outcome.ret (0, [Cprintf.mk smps_header []]) ∧
      mon_showmappings 2 [['s', 'm', 'p', 's'], ['0', 'x', '3', '0', '0', '0']] sample_tables ≠
        Outcome.ret (0, [Cprintf.mk smps_header [],
          mapped_record 12288 (PTE_ADDR 20487) ['0', '0', '0', '0', '0', '0', '1', '1', '1']]) := by
  refine ⟨by decide, by decide, rfl, ?_⟩
  rw [show mon_showmappings 2 [['s', 'm', 'p', 's'], ['0', 'x', '3', '0', '0', '0']] sample_tables =
    Outcome.ret (0, [Cprintf.mk smps_header []]) from rfl]
  intro h
  simp at h

/-- C12: for a resolved range all of whose pages fail the mapped test (the
directory entry is not present, or the table entry is not), `mon_showmappings`
prints after its header exactly `n_pages` unmapped markers, the `i`-th for the
address `va_start + i * 4096` (a 32-bit address: the sum itself whenever the
range ends within the address space), and `change_permissions`, set or clear,
whatever the letters, hands back the page tables unchanged. -/
theorem unmapped_range_report_and_frame (m : PageTables) (argc : Int)
    (argv : List (List Char)) (va_start n_pages : Nat)
    (hr : validate_and_retrieve argc argv smps_hint = Outcome.ret (va_start, n_pages))
    (hu : ∀ i, i < n_pages → mapped_test m (page_va va_start i) = Outcome.ret false) :
    mon_showmappings argc argv m =
        Outcome.ret (0, Cprintf.mk smps_header [] ::
          (List.range n_pages).map fun i => unmapped_record (page_va va_start i)) ∧
      (∀ i, i < n_pages → va_start + n_pages * 4096 ≤ 4294967296 →
        page_va va_start i = va_start + i * 4096) ∧
      ∀ (argc2 : Int) (argv2 : List (List Char)) (op : Bool) (hint : String),
        change_permissions_range argc2 argv2 hint = Outcome.ret (va_start, n_pages) →
          change_permissions argc2 argv2 op hint m = Outcome.ret m := by
  refine ⟨?_, ?_, ?_⟩
  · apply mon_showmappings_of_range argc argv m va_start n_pages _ hr
    have := mon_showmappings_loop_unmapped m va_start n_pages 0 (by simpa using hu)
    simpa using this
  · intro i hi hle
    unfold page_va
    apply Nat.mod_eq_of_lt
    have : (i + 1) * 4096 ≤ n_pages * 4096 := Nat.mul_le_mul_right _ hi
    omega
  · intro argc2 argv2 op hint h
    exact change_permissions_of_range argc2 argv2 op hint m _ h

theorem unmapped_range_report_and_frame_witness :
    mon_showmappings 3 [['s', 'm', 'p', 's'], ['0', 'x', '4', '0', '0', '0'], ['2']] sample_tables =
        Outcome.ret (0, Cprintf.mk smps_header [] ::
          (List.range 2).map fun i => unmapped_record (page_va 16384 i)) ∧
      change_permissions 4 [['s', 't', 'p'], ['0', 'x', '4', '0', '0', '0'], ['2'], ['W']]
        true stp_hint sample_tables = Outcome.ret sample_tables :=
  ⟨(unmapped_range_report_and_frame sample_tables 3
      [['s', 'm', 'p', 's'], ['0', 'x', '4', '0', '0', '0'], ['2']] 16384 2 (by decide)
      (by decide)).1,
    (unmapped_range_report_and_frame sample_tables 3
      [['s', 'm', 'p', 's'], ['0', 'x', '4', '0', '0', '0'], ['2']] 16384 2 (by decide)
      (by decide)).2.2 4 [['s', 't', 'p'], ['0', 'x', '4', '0', '0', '0'], ['2'], ['W']]
      true stp_hint (by decide)⟩

/-- C13 (the code at the failing input): the page `0x3000` is mapped and the
letters `AD` decode to the mask `0x60`, yet after `stp 0x3000 AD` the page
tables are the ones before the call: the entry is still `0x5007`, its Accessed
and Dirty bits still clear, not `0x5007 | 0x60`. -/
theorem mon_setpermissions_leaves_entry :
    mapped_test sample_tables 12288 = Outcome.ret true ∧
      str2perm ['A', 'D'] = Outcome.ret 96 ∧
      (∃ out, mon_setpermissions 3
          [['s', 't', 'p'], ['0', 'x', '3', '0', '0', '0'], ['A', 'D']] sample_tables =
        Outcome.ret (0, sample_tables, out)) ∧
      PTE sample_tables 12288 = Outcome.ret 20487 ∧
      20487 &&& PTE_A = 0 ∧ 20487 &&& PTE_D = 0 ∧ (20487 : Nat) ≠ 20487 ||| 96 := by
  refine ⟨by decide, by decide, ⟨_, rfl⟩, by decide, by decide, by decide, by decide⟩

/-- C14: whatever the page tables, the argument list and the letters (`P`
included), when `mon_setpermissions` or `mon_clearpermissions` returns, the page
tables it leaves are the ones it was given; so the Present bit of every
page-directory entry and of every page-table entry is as before. -/
theorem present_bit_unchanged (argc : Int) (argv : List (List Char)) (m m1 : PageTables)
    (r : Int) (out : List Cprintf)
    (h : mon_setpermissions argc argv m = Outcome.ret (r, m1, out) ∨
      mon_clearpermissions argc argv m = Outcome.ret (r, m1, out)) :
    m1 = m ∧ (∀ i, m1.kern_pgdir i &&& PTE_P = m.kern_pgdir i &&& PTE_P) ∧
      ∀ pa j, (m1.frame pa).map (fun table => table j &&& PTE_P) =
        (m.frame pa).map fun table => table j &&& PTE_P := by
  have hm : m1 = m := by
    rcases h with h | h
    · exact mon_setpermissions_ret argc argv m m1 r out h
    · exact mon_clearpermissions_ret argc argv m m1 r out h
  subst hm
  exact ⟨rfl, fun _ => rfl, fun _ _ => rfl⟩

theorem present_bit_unchanged_witness :
    mon_setpermissions 3 [['s', 't', 'p'], ['0', 'x', '3', '0', '0', '0'], ['P', 'W']]
        sample_tables =
      Outcome.ret (0, sample_tables,
        [Cprintf.mk "Permission has been updated:\n" [], Cprintf.mk smps_header []]) ∧
      sample_tables = sample_tables ∧
      (∀ i, sample_tables.kern_pgdir i &&& PTE_P = sample_tables.kern_pgdir i &&& PTE_P) ∧
      ∀ pa j, (sample_tables.frame pa).map (fun table => table j &&& PTE_P) =
        (sample_tables.frame pa).map fun table => table j &&& PTE_P :=
  ⟨rfl, present_bit_unchanged 3 [['s', 't', 'p'], ['0', 'x', '3', '0', '0', '0'], ['P', 'W']]
    sample_tables sample_tables 0
    [Cprintf.mk "Permission has been updated:\n" [], Cprintf.mk smps_header []] (Or.inl rfl)⟩

theorem N_PAGES_args (argc : Int) (va : Nat) (argv argv2 : List (List Char))
    (h2 : argc ≠ 2 → argv[2]? = argv2[2]?) : N_PAGES argc va argv = N_PAGES argc va argv2 := by
  unfold N_PAGES
  by_cases hc : argc = 2
  · rw [if_pos hc, if_pos hc]
  · rw [if_neg hc, if_neg hc, h2 hc]

/-- The range depends on the argument vector only through `argv[1]` and, unless
`argc` is 2, `argv[2]`. -/
theorem validate_and_retrieve_args (argc : Int) (argv argv2 : List (List Char))
    (hint hint2 : String) (h1 : argv[1]? = argv2[1]?) (h2 : argc ≠ 2 → argv[2]? = argv2[2]?) :
    validate_and_retrieve argc argv hint = validate_and_retrieve argc argv2 hint2 := by
  unfold validate_and_retrieve
  rw [h1]
  cases argv2[1]? with
  | none => rfl
  | some arg1 => simp only [N_PAGES_args argc _ argv argv2 h2]

theorem letters_not_in_range (cmd cmd2 a1 letters : List Char) (a2s : List (List Char))
    (hint hint2 : String) :
    validate_and_retrieve ((a2s.length : Int) + 2) (cmd :: a1 :: (a2s ++ [letters])) hint =
      validate_and_retrieve ((a2s.length : Int) + 2) (cmd2 :: a1 :: a2s) hint2 := by
  apply validate_and_retrieve_args
  · simp
  · intro hc
    cases a2s with
    | nil => simp at hc
    | cons a2 rest => simp

theorem mon_showmappings_args (argc : Int) (argv argv2 : List (List Char)) (m : PageTables)
    (h : validate_and_retrieve argc argv smps_hint = validate_and_retrieve argc argv2 smps_hint) :
    mon_showmappings argc argv m = mon_showmappings argc argv2 m := by
  unfold mon_showmappings
  rw [h]

theorem report_after_change (argc : Int) (argv argv2 : List (List Char)) (op : Bool)
    (hint : String) (m : PageTables) (msg : String)
    (h : validate_and_retrieve (argc - 1) argv hint =
      validate_and_retrieve (argc - 1) argv2 smps_hint) :
    ((change_permissions argc argv op hint m).bind fun m1 =>
        (mon_showmappings (argc - 1) argv m1).bind fun shown =>
          Outcome.ret ((0 : Int), m1, Cprintf.mk msg [] :: shown.2)) =
      (mon_showmappings (argc - 1) argv2 m).bind fun shown =>
        Outcome.ret ((0 : Int), m, Cprintf.mk msg [] :: shown.2) := by
  have hs : mon_showmappings (argc - 1) argv m = mon_showmappings (argc - 1) argv2 m :=
    mon_showmappings_args _ _ _ _ ((validate_and_retrieve_hint _ _ _ _).trans h)
  unfold change_permissions change_permissions_range
  rw [h]
  cases hv : validate_and_retrieve (argc - 1) argv2 smps_hint with
  | ret range => rw [bind_ret, bind_ret, hs]
  | panic s =>
    have : mon_showmappings (argc - 1) argv2 m = Outcome.panic s := by
      unfold mon_showmappings
      rw [hv]
      rfl
    rw [this]
    rfl
  | fault =>
    have : mon_showmappings (argc - 1) argv2 m = Outcome.fault := by
      unfold mon_showmappings
      rw [hv]
      rfl
    rw [this]
    rfl

theorem range_filterMap_shift {α : Type} (f : Nat → Option α) (k : Nat) :
    (List.range (k + 1)).filterMap f =
      (f 0).toList ++ (List.range k).filterMap fun i => f (i + 1) := by
  rw [List.range_succ_eq_map, List.filterMap_cons, List.filterMap_map]
  cases f 0 <;> rfl

/-- A page that passes the mapped test has a readable entry, so `PERM` returns. -/
theorem PERM_of_mapped (m : PageTables) (va : Nat)
    (h : mapped_test m va = Outcome.ret true) : ∃ perm, PERM m va = Outcome.ret perm := by
  unfold mapped_test at h
  by_cases hp : P_PDE m va ≠ 0
  · rw [if_pos hp] at h
    obtain ⟨p, hp1, _⟩ := bind_eq_ret _ _ _ h
    unfold P_PTE at hp1
    obtain ⟨e, he, _⟩ := bind_eq_ret _ _ _ hp1
    exact ⟨e % 4096, PERM_of_PTE m va e he⟩
  · rw [if_neg hp] at h
    cases h

/-- The loop of `mon_showmappings` over pages whose mapped test returns: it
prints, in order, the marker of each page that fails the test and nothing for a
page that passes it. -/
theorem mon_showmappings_loop_report (m : PageTables) (va_start : Nat) (left : Nat) :
    ∀ cnt, (∀ i, i < left → ∃ b, mapped_test m (page_va va_start (cnt + i)) = Outcome.ret b) →
      mon_showmappings_loop m va_start left cnt =
        Outcome.ret ((List.range left).filterMap fun i =>
          if mapped_test m (page_va va_start (cnt + i)) = Outcome.ret false then
            some (unmapped_record (page_va va_start (cnt + i)))
          else none) := by
  induction left with
  | zero => intro cnt _; rfl
  | succ k ih =>
    intro cnt h
    obtain ⟨b, hb⟩ := h 0 (Nat.succ_pos k)
    have hb0 : mapped_test m (page_va va_start cnt) = Outcome.ret b := hb
    have hfun : (fun i => if mapped_test m (page_va va_start (cnt + 1 + i)) = Outcome.ret false then
          some (unmapped_record (page_va va_start (cnt + 1 + i))) else none) =
        fun i => if mapped_test m (page_va va_start (cnt + (i + 1))) = Outcome.ret false then
          some (unmapped_record (page_va va_start (cnt + (i + 1)))) else none := by
      funext i
      rw [show cnt + 1 + i = cnt + (i + 1) by omega]
    have hrest := ih (cnt + 1) fun i hi => by
      have := h (i + 1) (Nat.succ_lt_succ hi)
      rwa [show cnt + (i + 1) = cnt + 1 + i by omega] at this
    rw [hfun] at hrest
    rw [range_filterMap_shift, mon_showmappings_loop]
    simp only [loop_va, marker_eq, hb0, bind_ret, hrest, Nat.add_zero]
    cases b with
    | true =>
      obtain ⟨perm, hperm⟩ := PERM_of_mapped m _ hb0
      simp only [if_true, hperm, bind_ret]
      rw [if_neg (by simp)]
      rfl
    | false =>
      simp only [Bool.false_eq_true, if_false, if_true]
      rfl

theorem mon_showmappings_report (argc : Int) (argv : List (List Char)) (m : PageTables)
    (va_start n_pages : Nat)
    (hr : validate_and_retrieve argc argv smps_hint = Outcome.ret (va_start, n_pages))
    (hm : ∀ i, i < n_pages → ∃ b, mapped_test m (page_va va_start i) = Outcome.ret b) :
    mon_showmappings argc argv m =
      Outcome.ret (0, Cprintf.mk smps_header [] :: range_report m va_start n_pages) := by
  apply mon_showmappings_of_range argc argv m va_start n_pages _ hr
  have := mon_showmappings_loop_report m va_start n_pages 0 (by simpa using hm)
  simpa [range_report] using this

theorem change_permissions_eq (argc : Int) (argv argv2 : List (List Char)) (op : Bool)
    (hint hint2 : String) (m : PageTables)
    (h : validate_and_retrieve (argc - 1) argv hint = validate_and_retrieve (argc - 1) argv2 hint2) :
    change_permissions argc argv op hint m =
      (validate_and_retrieve (argc - 1) argv2 hint2).bind fun _ => Outcome.ret m := by
  unfold change_permissions change_permissions_range
  rw [h]

set_option maxRecDepth 100000 in
theorem clp_hundred_pages :
    mon_clearpermissions 4
        [['c', 'l', 'p'], ['0', 'x', '3', '0', '0', '0'], ['1', '0', '0'], ['W']] empty_tables =
      Outcome.ret (0, empty_tables, Cprintf.mk "Permission has been cleared:\n" [] ::
        Cprintf.mk smps_header [] ::
          (List.range 100).map fun i => unmapped_record (12288 + i * 4096)) := rfl

theorem stp_one_page :
    mon_setpermissions 3
        [['s', 't', 'p'], ['0', 'x', '3', '0', '0', '0'], ['A', 'D']] empty_tables =
      Outcome.ret (0, empty_tables, [Cprintf.mk "Permission has been updated:\n" [],
        Cprintf.mk smps_header [], unmapped_record 12288]) := rfl

/-- C20: for `stp` and `clp` the trailing letters are never read as part of the
range. For every argument list `cmd a1 [a2 ..] letters`: the range
`change_permissions` resolves is the range `validate_and_retrieve` resolves for
`smps a1 [a2 ..]`, and `change_permissions` returns, panics or faults exactly as
that resolution does; when the range resolves to `(va_start, n_pages)`, what the
command prints after its confirmation line is the header and then the report
over exactly the pages `va_start + i * 4096`, `i < n_pages`, the same that
`smps a1 [a2 ..]` prints. With nothing mapped, `clp 0x3000 100 W` reports the 100
pages from `0x3000` and `stp 0x3000 AD` the one page `0x3000`. -/
theorem permission_commands_range (cmd a1 letters : List Char) (a2s : List (List Char))
    (m : PageTables) :
    (∀ hint : String,
      change_permissions_range ((a2s.length : Int) + 3) (cmd :: a1 :: (a2s ++ [letters])) hint =
        validate_and_retrieve ((a2s.length : Int) + 2) (['s', 'm', 'p', 's'] :: a1 :: a2s)
          smps_hint) ∧
    (∀ (op : Bool) (hint : String),
      change_permissions ((a2s.length : Int) + 3) (cmd :: a1 :: (a2s ++ [letters])) op hint m =
        (validate_and_retrieve ((a2s.length : Int) + 2) (['s', 'm', 'p', 's'] :: a1 :: a2s)
          smps_hint).bind fun _ => Outcome.ret m) ∧
    (∀ va_start n_pages : Nat,
      validate_and_retrieve ((a2s.length : Int) + 2) (['s', 'm', 'p', 's'] :: a1 :: a2s)
          smps_hint = Outcome.ret (va_start, n_pages) →
      (∀ i, i < n_pages → ∃ b, mapped_test m (page_va va_start i) = Outcome.ret b) →
        mon_showmappings ((a2s.length : Int) + 2) (['s', 'm', 'p', 's'] :: a1 :: a2s) m =
            Outcome.ret (0, Cprintf.mk smps_header [] :: range_report m va_start n_pages) ∧
          mon_setpermissions ((a2s.length : Int) + 3) (cmd :: a1 :: (a2s ++ [letters])) m =
            Outcome.ret (0, m, Cprintf.mk "Permission has been updated:\n" [] ::
              Cprintf.mk smps_header [] :: range_report m va_start n_pages) ∧
          mon_clearpermissions ((a2s.length : Int) + 3) (cmd :: a1 :: (a2s ++ [letters])) m =
            Outcome.ret (0, m, Cprintf.mk "Permission has been cleared:\n" [] ::
              Cprintf.mk smps_header [] :: range_report m va_start n_pages)) ∧
    mon_setpermissions ((a2s.length : Int) + 3) (cmd :: a1 :: (a2s ++ [letters])) m =
        ((mon_showmappings ((a2s.length : Int) + 2) (['s', 'm', 'p', 's'] :: a1 :: a2s) m).bind
          fun shown =>
            Outcome.ret (0, m, Cprintf.mk "Permission has been updated:\n" [] :: shown.2)) ∧
    mon_clearpermissions ((a2s.length : Int) + 3) (cmd :: a1 :: (a2s ++ [letters])) m =
        ((mon_showmappings ((a2s.length : Int) + 2) (['s', 'm', 'p', 's'] :: a1 :: a2s) m).bind
          fun shown =>
            Outcome.ret (0, m, Cprintf.mk "Permission has been cleared:\n" [] :: shown.2)) ∧
    change_permissions_range 4
        [['c', 'l', 'p'], ['0', 'x', '3', '0', '0', '0'], ['1', '0', '0'], ['W']] clp_hint =
      Outcome.ret (12288, 100) ∧
    change_permissions_range 3
        [['s', 't', 'p'], ['0', 'x', '3', '0', '0', '0'], ['A', 'D']] stp_hint =
      Outcome.ret (12288, 1) ∧
    mon_clearpermissions 4
        [['c', 'l', 'p'], ['0', 'x', '3', '0', '0', '0'], ['1', '0', '0'], ['W']] empty_tables =
      Outcome.ret (0, empty_tables, Cprintf.mk "Permission has been cleared:\n" [] ::
        Cprintf.mk smps_header [] ::
          (List.range 100).map fun i => unmapped_record (12288 + i * 4096)) ∧
    mon_setpermissions 3
        [['s', 't', 'p'], ['0', 'x', '3', '0', '0', '0'], ['A', 'D']] empty_tables =
      Outcome.ret (0, empty_tables, [Cprintf.mk "Permission has been updated:\n" [],
        Cprintf.mk smps_header [], unmapped_record 12288]) := by
  have e : (a2s.length : Int) + 3 - 1 = (a2s.length : Int) + 2 := by omega
  have key : ∀ hint : String,
      validate_and_retrieve ((a2s.length : Int) + 3 - 1) (cmd :: a1 :: (a2s ++ [letters])) hint =
        validate_and_retrieve ((a2s.length : Int) + 3 - 1) (['s', 'm', 'p', 's'] :: a1 :: a2s)
          smps_hint := by
    intro hint
    rw [e]
    exact letters_not_in_range cmd ['s', 'm', 'p', 's'] a1 letters a2s hint smps_hint
  have hset : mon_setpermissions ((a2s.length : Int) + 3) (cmd :: a1 :: (a2s ++ [letters])) m =
      ((mon_showmappings ((a2s.length : Int) + 2) (['s', 'm', 'p', 's'] :: a1 :: a2s) m).bind
        fun shown =>
          Outcome.ret (0, m, Cprintf.mk "Permission has been updated:\n" [] :: shown.2)) := by
    unfold mon_setpermissions
    rw [report_after_change _ _ (['s', 'm', 'p', 's'] :: a1 :: a2s) true stp_hint m _ (key _), e]
  have hclr : mon_clearpermissions ((a2s.length : Int) + 3) (cmd :: a1 :: (a2s ++ [letters])) m =
      ((mon_showmappings ((a2s.length : Int) + 2) (['s', 'm', 'p', 's'] :: a1 :: a2s) m).bind
        fun shown =>
          Outcome.ret (0, m, Cprintf.mk "Permission has been cleared:\n" [] :: shown.2)) := by
    unfold mon_clearpermissions
    rw [report_after_change _ _ (['s', 'm', 'p', 's'] :: a1 :: a2s) false clp_hint m _ (key _), e]
  refine ⟨fun hint => ?_, fun op hint => ?_, fun va_start n_pages hr hm => ?_, hset, hclr,
    by decide, by decide, clp_hundred_pages, stp_one_page⟩
  · unfold change_permissions_range
    rw [key hint, e]
  · have := change_permissions_eq ((a2s.length : Int) + 3) (cmd :: a1 :: (a2s ++ [letters]))
      (['s', 'm', 'p', 's'] :: a1 :: a2s) op hint smps_hint m (key hint)
    rwa [e] at this
  · have hshow := mon_showmappings_report _ _ m va_start n_pages hr hm
    refine ⟨hshow, ?_, ?_⟩
    · rw [hset, hshow]
      rfl
    · rw [hclr, hshow]
      rfl

theorem permission_commands_range_witness :
    mon_showmappings 3 [['s', 'm', 'p', 's'], ['0', 'x', '2', '0', '0', '0'], ['3']]
          sample_tables =
        Outcome.ret (0, Cprintf.mk smps_header [] :: range_report sample_tables 8192 3) ∧
      mon_setpermissions 4 [['s', 't', 'p'], ['0', 'x', '2', '0', '0', '0'], ['3'], ['W']]
          sample_tables =
        Outcome.ret (0, sample_tables, Cprintf.mk "Permission has been updated:\n" [] ::
          Cprintf.mk smps_header [] :: range_report sample_tables 8192 3) ∧
      mon_clearpermissions 4 [['s', 't', 'p'], ['0', 'x', '2', '0', '0', '0'], ['3'], ['W']]
          sample_tables =
        Outcome.ret (0, sample_tables, Cprintf.mk "Permission has been cleared:\n" [] ::
          Cprintf.mk smps_header [] :: range_report sample_tables 8192 3) :=
  (permission_commands_range ['s', 't', 'p'] ['0', 'x', '2', '0', '0', '0'] ['W'] [['3']]
    sample_tables).2.2.1 8192 3 (by decide)
    (fun i hi => by interval_cases i <;> exact ⟨_, rfl⟩)

/-! ## Command interpreter: auxiliary facts -/

theorem code_injective (c d : Char) (h : code c = code d) : c = d := by
  rw [char_of_code c d.toNat h, Char.ofNat_toNat]

theorem code_ne_zero_of_nulFree (t : List Char) (ht : NulFree t) (c : Char) (hc : c ∈ t) :
    code c ≠ 0 := fun h => ht c hc ((code_eq_zero_iff c).1 h)

theorem nulFree_tail (c : Char) (cs : List Char) (h : NulFree (c :: cs)) : NulFree cs :=
  fun d hd => h d (List.mem_cons_of_mem _ hd)

/-- On C strings `strcmp` returns zero exactly for equal strings. -/
theorem strcmp_eq_zero_iff (a : List Char) : ∀ b : List Char, NulFree a → NulFree b →
    (strcmp a b = 0 ↔ a = b) := by
  induction a with
  | nil =>
    intro b _ hb
    cases b with
    | nil => simp [strcmp]
    | cons d ds =>
      have := code_ne_zero_of_nulFree _ hb d (List.mem_cons_self _ _)
      simp only [strcmp, List.nil_eq, reduceCtorEq, iff_false]
      omega
  | cons c cs ih =>
    intro b ha hb
    have hc := code_ne_zero_of_nulFree _ ha c (List.mem_cons_self _ _)
    cases b with
    | nil =>
      simp only [strcmp, reduceCtorEq, iff_false]
      exact hc
    | cons d ds =>
      rw [strcmp]
      by_cases hcd : c = d
      · subst hcd
        rw [if_pos ⟨hc, rfl⟩, ih ds (nulFree_tail _ _ ha) (nulFree_tail _ _ hb)]
        simp
      · rw [if_neg (fun h => hcd h.2)]
        have : code c ≠ code d := fun h => hcd (code_injective c d h)
        constructor
        · intro h
          omega
        · intro h
          exact absurd (List.cons.inj h).1 hcd

theorem mem_of_mem_splitOnP (p : Char → Bool) (l : List Char) :
    ∀ t ∈ l.splitOnP p, ∀ c ∈ t, c ∈ l := by
  induction l with
  | nil =>
    intro t ht c hc
    rw [List.splitOnP_nil, List.mem_singleton] at ht
    rw [ht] at hc
    exact hc
  | cons x xs ih =>
    intro t ht c hc
    rw [List.splitOnP_cons] at ht
    by_cases hp : p x = true
    · rw [if_pos hp] at ht
      rcases List.mem_cons.1 ht with h | h
      · rw [h] at hc
        cases hc
      · exact List.mem_cons_of_mem _ (ih t h c hc)
    · rw [if_neg hp] at ht
      cases hs : List.splitOnP p xs with
      | nil => exact absurd hs (List.splitOnP_ne_nil p xs)
      | cons hd tl =>
        rw [hs] at ht ih
        simp only [List.modifyHead_cons, List.mem_cons] at ht
        rcases ht with h | h
        · rw [h] at hc
          rcases List.mem_cons.1 hc with h2 | h2
          · rw [h2]
            exact List.mem_cons_self _ _
          · exact List.mem_cons_of_mem _ (ih hd (List.mem_cons_self _ _) c h2)
        · exact List.mem_cons_of_mem _ (ih t (List.mem_cons_of_mem _ h) c hc)

theorem nulFree_of_mem_tokens (line : List Char) (hline : NulFree line) (t : List Char)
    (ht : t ∈ tokens line) : NulFree t := by
  intro c hc
  unfold tokens at ht
  exact hline c (mem_of_mem_splitOnP _ line t (List.mem_filter.1 ht).1 c hc)

theorem tokens_nil : tokens [] = [] := by decide

theorem tokens_cons_space (c : Char) (cs : List Char) (hc : c ∈ WHITESPACE) :
    tokens (c :: cs) = tokens cs := by
  unfold tokens
  rw [List.splitOnP_cons, if_pos (by simpa using hc)]
  rfl

theorem tokens_gobble (buf : List Char) : tokens (gobble buf) = tokens buf := by
  induction buf with
  | nil => rfl
  | cons c cs ih =>
    rw [gobble]
    split
    · next h => rw [ih, tokens_cons_space c cs h.2]
    · rfl

theorem gobble_length (buf : List Char) : (gobble buf).length ≤ buf.length := by
  induction buf with
  | nil => simp [gobble]
  | cons c cs ih =>
    rw [gobble]
    split
    · simp only [List.length_cons]
      omega
    · exact Nat.le_refl _

theorem gobble_nulFree (buf : List Char) (h : NulFree buf) : NulFree (gobble buf) := by
  induction buf with
  | nil => exact h
  | cons c cs ih =>
    rw [gobble]
    split
    · exact ih (nulFree_tail _ _ h)
    · exact h

theorem gobble_head (buf : List Char) (h : NulFree buf) (c : Char) (cs : List Char)
    (hg : gobble buf = c :: cs) : c ∉ WHITESPACE := by
  induction buf with
  | nil => simp [gobble] at hg
  | cons d ds ih =>
    rw [gobble] at hg
    split at hg
    · exact ih (nulFree_tail _ _ h) hg
    · next hn =>
      have hd := code_ne_zero_of_nulFree _ h d (List.mem_cons_self _ _)
      obtain ⟨rfl, _⟩ := List.cons.inj hg
      exact fun hw => hn ⟨hd, hw⟩

theorem scan_arg_length (buf : List Char) : (scan_arg buf).2.length ≤ buf.length := by
  induction buf with
  | nil => simp [scan_arg]
  | cons c cs ih =>
    rw [scan_arg]
    split
    · simp only [List.length_cons]
      omega
    · exact Nat.le_refl _

theorem scan_arg_nulFree (buf : List Char) (h : NulFree buf) : NulFree (scan_arg buf).2 := by
  induction buf with
  | nil => exact h
  | cons c cs ih =>
    rw [scan_arg]
    split
    · exact ih (nulFree_tail _ _ h)
    · exact h

theorem scan_arg_space (c : Char) (cs : List Char) (hw : c ∈ WHITESPACE) :
    scan_arg (c :: cs) = ([], c :: cs) := by
  rw [scan_arg, if_neg (fun hh => hh.2 hw)]

theorem scan_arg_char (c : Char) (cs : List Char) (hc : code c ≠ 0) (hw : c ∉ WHITESPACE) :
    scan_arg (c :: cs) = (c :: (scan_arg cs).1, (scan_arg cs).2) := by
  rw [scan_arg, if_pos ⟨hc, hw⟩]

theorem splitOnP_scan_arg (buf : List Char) (h : NulFree buf) :
    buf.splitOnP (fun c => decide (c ∈ WHITESPACE)) =
      (scan_arg buf).1 ::
        (match (scan_arg buf).2 with
          | [] => []
          | _ :: r => r.splitOnP fun c => decide (c ∈ WHITESPACE)) := by
  induction buf with
  | nil => rfl
  | cons c cs ih =>
    have hc := code_ne_zero_of_nulFree _ h c (List.mem_cons_self _ _)
    by_cases hw : c ∈ WHITESPACE
    · rw [scan_arg_space c cs hw, List.splitOnP_cons, if_pos (by simpa using hw)]
    · rw [scan_arg_char c cs hc hw, List.splitOnP_cons, if_neg (by simpa using hw),
        ih (nulFree_tail _ _ h)]
      rfl

/-- The tokens of a buffer: the argument `scan_arg` reads off its head, when
there is one, then the tokens of what follows the character it stopped at. -/
theorem tokens_scan_arg (buf : List Char) (h : NulFree buf) :
    tokens buf =
      (if (scan_arg buf).1 = [] then [] else [(scan_arg buf).1]) ++
        tokens (scan_arg buf).2.tail := by
  unfold tokens
  rw [splitOnP_scan_arg buf h, List.filter_cons]
  cases hr : (scan_arg buf).2 with
  | nil =>
    cases ht : (scan_arg buf).1 with
    | nil => rfl
    | cons x xs => rfl
  | cons w r =>
    cases ht : (scan_arg buf).1 with
    | nil => rfl
    | cons x xs => rfl

theorem scan_arg_rest (buf : List Char) (h : NulFree buf) :
    tokens (scan_arg buf).2 = tokens (scan_arg buf).2.tail := by
  induction buf with
  | nil => rfl
  | cons c cs ih =>
    have hc := code_ne_zero_of_nulFree _ h c (List.mem_cons_self _ _)
    by_cases hw : c ∈ WHITESPACE
    · rw [scan_arg_space c cs hw]
      exact tokens_cons_space c cs hw
    · rw [scan_arg_char c cs hc hw]
      exact ih (nulFree_tail _ _ h)

theorem tokens_of_arg (c : Char) (cs : List Char) (h : NulFree (c :: cs))
    (hw : c ∉ WHITESPACE) :
    tokens (c :: cs) = (scan_arg (c :: cs)).1 :: tokens (scan_arg (c :: cs)).2 ∧
      (scan_arg (c :: cs)).2.length < (c :: cs).length := by
  have hc := code_ne_zero_of_nulFree _ h c (List.mem_cons_self _ _)
  constructor
  · rw [scan_arg_rest _ h, tokens_scan_arg _ h, scan_arg_char c cs hc hw]
    rfl
  · rw [scan_arg_char c cs hc hw]
    have := scan_arg_length cs
    simp only [List.length_cons]
    omega

/-- With more iterations allowed than the buffer has characters, the parsing
loop of `runcmd` saves the tokens of the buffer after the arguments it already
holds, and reports too many arguments exactly when a sixteenth one begins. -/
theorem runcmd_parse_tokens (fuel : Nat) : ∀ (buf : List Char) (argv : List (List Char)),
    NulFree buf → buf.length < fuel → argv.length ≤ 15 →
      runcmd_parse fuel buf argv =
        if argv.length + (tokens buf).length ≤ 15 then some (argv ++ tokens buf) else none := by
  induction fuel with
  | zero => intro buf argv _ h _; omega
  | succ f ih =>
    intro buf argv hn hlen hargv
    rw [runcmd_parse]
    have hg := gobble_nulFree buf hn
    have hl := gobble_length buf
    rw [← tokens_gobble buf]
    cases hb : gobble buf with
    | nil =>
      rw [if_pos charAt_nil, tokens_nil]
      simp [hargv]
    | cons c cs =>
      rw [hb] at hg hl
      have hw := gobble_head buf hn c cs hb
      have hc := code_ne_zero_of_nulFree _ hg c (List.mem_cons_self _ _)
      obtain ⟨htok, hlt⟩ := tokens_of_arg c cs hg hw
      have hne : ¬ code (charAt (c :: cs) 0) = 0 := by simpa [charAt] using hc
      rw [if_neg hne, htok]
      by_cases h15 : argv.length = MAXARGS - 1
      · rw [if_pos h15, if_neg]
        have : MAXARGS - 1 = 15 := rfl
        simp only [List.length_cons]
        omega
      · rw [if_neg h15]
        have h15' : argv.length ≠ 15 := h15
        have h3 : (argv ++ [(scan_arg (c :: cs)).1]).length ≤ 15 := by
          rw [List.length_append, List.length_singleton]
          omega
        rw [ih _ _ (scan_arg_nulFree _ hg) (by omega) h3]
        have e1 : (argv ++ [(scan_arg (c :: cs)).1]).length +
            (tokens (scan_arg (c :: cs)).2).length =
            argv.length + ((tokens (scan_arg (c :: cs)).2).length + 1) := by
          rw [List.length_append, List.length_singleton]
          omega
        have e2 : argv ++ [(scan_arg (c :: cs)).1] ++ tokens (scan_arg (c :: cs)).2 =
            argv ++ (scan_arg (c :: cs)).1 :: tokens (scan_arg (c :: cs)).2 := by
          simp
        rw [e1, e2, List.length_cons]

theorem runcmd_parse_line (line : List Char) (hline : NulFree line) :
    runcmd_parse (line.length + 1) line [] =
      if (tokens line).length ≤ 15 then some (tokens line) else none := by
  rw [runcmd_parse_tokens (line.length + 1) line [] hline (Nat.lt_succ_self _) (by simp)]
  simp

theorem command_names_nulFree : ∀ name ∈ command_names, NulFree name := by
  unfold NulFree
  decide

theorem find_command_none (tok0 : List Char) (h0 : NulFree tok0) (hname : tok0 ∉ command_names) :
    commands.find? (fun cmd => decide (strcmp tok0 cmd.name = 0)) = none := by
  rw [List.find?_eq_none]
  intro cmd hcmd
  have hmem : cmd.name ∈ command_names := List.mem_map_of_mem _ hcmd
  have hne : tok0 ≠ cmd.name := fun h => hname (h ▸ hmem)
  have := strcmp_eq_zero_iff tok0 cmd.name h0 (command_names_nulFree _ hmem)
  simp only [decide_eq_true_eq]
  exact fun h => hne (this.1 h)

theorem monitor_step_some (buf : List Char) (sym : KernelSymbols) (m m1 : PageTables) (r : Int)
    (out : List Cprintf) (h : runcmd buf sym m = Outcome.ret (r, m1, out)) :
    monitor_step (some buf) sym m = Outcome.ret (decide (r < 0), m1, out) := by
  unfold monitor_step
  simp only [h, bind_ret]
  by_cases hr : r < 0
  · rw [if_pos hr]
    simp [hr]
  · rw [if_neg hr]
    simp [hr]

/-! ## Command interpreter: the claims -/

/-- C16: for every line (free of NUL) whose first whitespace-separated token is
none of the registered command names `help`, `kerninfo`, `smps`, `stp`, `clp`, and
that has fewer than 15 tokens, `runcmd` prints `Unknown command` with that token,
returns 0 and leaves the page tables as they were; no entry of the command table
matches, so no handler is called and nothing else is printed;
so the pass through the loop of `monitor` does not end in the `break`. -/
theorem runcmd_unknown_command (line : List Char) (hline : NulFree line)
    (tok0 : List Char) (rest : List (List Char)) (htok : tokens line = tok0 :: rest)
    (hcount : (tokens line).length < 15) (hname : tok0 ∉ command_names)
    (sym : KernelSymbols) (m : PageTables) :
    command_names = [['h', 'e', 'l', 'p'], ['k', 'e', 'r', 'n', 'i', 'n', 'f', 'o'],
        ['s', 'm', 'p', 's'], ['s', 't', 'p'], ['c', 'l', 'p']] ∧
      commands.find? (fun cmd => decide (strcmp tok0 cmd.name = 0)) = none ∧
      runcmd line sym m =
        Outcome.ret (0, m, [Cprintf.mk "Unknown command '%s'\n" [Arg.str tok0]]) ∧
      monitor_step (some line) sym m =
        Outcome.ret (false, m, [Cprintf.mk "Unknown command '%s'\n" [Arg.str tok0]]) := by
  have h0 : NulFree tok0 :=
    nulFree_of_mem_tokens line hline tok0 (by rw [htok]; exact List.mem_cons_self _ _)
  have hrun : runcmd line sym m =
      Outcome.ret (0, m, [Cprintf.mk "Unknown command '%s'\n" [Arg.str tok0]]) := by
    unfold runcmd
    rw [runcmd_parse_line line hline, if_pos (by omega), htok]
    simp only [find_command_none tok0 h0 hname]
  refine ⟨rfl, find_command_none tok0 h0 hname, hrun, ?_⟩
  rw [monitor_step_some line sym m m 0 _ hrun]
  rfl

theorem runcmd_unknown_command_witness :
    runcmd [' ', 'f', 'o', 'o', ' ', '0', 'x', '3', '0', '0', '0'] sample_symbols sample_tables =
      Outcome.ret (0, sample_tables,
        [Cprintf.mk "Unknown command '%s'\n" [Arg.str ['f', 'o', 'o']]]) :=
  (runcmd_unknown_command [' ', 'f', 'o', 'o', ' ', '0', 'x', '3', '0', '0', '0']
    (by unfold NulFree; decide) ['f', 'o', 'o'] [['0', 'x', '3', '0', '0', '0']] (by decide)
    (by decide) (by decide) sample_symbols sample_tables).2.2.1

end Monitor
